import Mathlib

/-!
Shallow embedding of niviz's configuration-resolution and hierarchical
grouping engine (`src/niviz/config.py`), together with theorems settling
the specification claims about it.

Python dicts are embedded as insertion-ordered association lists, Python
exceptions as an explicit `PyErr` error type threaded through `Except`,
the filesystem (`glob`) and the OS environment as explicit function
parameters, and `re` regular-expression search as a small executable
matcher covering the constructs occurring in entity rules.
-/

namespace Niviz

/-- Python exceptions that the embedded code can raise. -/
inductive PyErr where
  | validationError : List String → PyErr
  | keyError : String → PyErr
  | typeError : PyErr
  | indexError : PyErr
  | valueError : PyErr
deriving DecidableEq, Repr

/-- Decidable equality on `Except`, used to evaluate the embedded
operations at concrete inputs. -/
instance {ε α : Type} [DecidableEq ε] [DecidableEq α] : DecidableEq (Except ε α) := fun x y =>
  match x, y with
  | .ok a, .ok b =>
    if h : a = b then .isTrue (by rw [h]) else .isFalse (fun hc => h (Except.ok.inj hc))
  | .ok _, .error _ => .isFalse (fun hc => Except.noConfusion hc)
  | .error _, .ok _ => .isFalse (fun hc => Except.noConfusion hc)
  | .error a, .error b =>
    if h : a = b then .isTrue (by rw [h]) else .isFalse (fun hc => h (Except.error.inj hc))

/-! ## Association lists (Python `dict` with insertion order) -/

/-- First-occurrence lookup, as in a Python dict (keys are unique there). -/
def lookupA {κ α : Type} [DecidableEq κ] : List (κ × α) → κ → Option α
  | [], _ => none
  | (k, v) :: t, q => if k = q then some v else lookupA t q

/-- Python `d[k] = v`: overwrite in place when the key exists (keeping its
position), otherwise append at the end. -/
def setA {κ α : Type} [DecidableEq κ] : List (κ × α) → κ → α → List (κ × α)
  | [], k, v => [(k, v)]
  | (k', v') :: t, k, v => if k' = k then (k', v) :: t else (k', v') :: setA t k v

/-- Keys of an association list, in order. -/
def keysA {κ α : Type} (l : List (κ × α)) : List κ := l.map (·.1)

/-- Python `defaultdict(list)` `d[k].append(x)`: append to an existing
group in place, otherwise create the group at the end. -/
def addGrp {κ α : Type} [DecidableEq κ] : List (κ × List α) → κ → α → List (κ × List α)
  | [], k, x => [(k, [x])]
  | (k', l) :: t, k, x =>
    if k' = k then (k', l ++ [x]) :: t else (k', l) :: addGrp t k x

/-! ## Scalar YAML values appearing inside entity rules and argument values -/

/-- A scalar configuration value: the entity-rule fields (`regex`,
`value`) and argument values hold strings or booleans. -/
inductive RVal where
  | str : String → RVal
  | bool : Bool → RVal
deriving DecidableEq, Repr

/-- Python truthiness of a scalar (`v.get('regex', False)` is used as a
condition). -/
def truthy : RVal → Bool
  | .str s => s ≠ ""
  | .bool b => b

/-- One entity rule: the inner dict such as
`{regex: true, value: "sub-(\\d+)"}`. -/
abbrev Rule := List (String × RVal)

/-- The `bids_map`: entity name to entity rule, insertion ordered. -/
abbrev BidsMap := List (String × Rule)

/-- Inner level of `_nested_update`: the update's scalar entries overwrite
the base rule's entries (`d[k] = v`). -/
def ruleUpdate (d u : Rule) : Rule :=
  u.foldl (fun acc kv => setA acc kv.1 kv.2) d

/-- `_nested_update(d, u)` specialised to the two-level shape of a
`bids_map` (entity name to rule dict): for every key of `u`, the value is
a mapping, so `d[k] = _nested_update(d.get(k, {}), v)`.  Entries of `u`
overwrite entries of `d`. -/
def nestedUpdate (d u : BidsMap) : BidsMap :=
  u.foldl (fun acc kv => setA acc kv.1 (ruleUpdate ((lookupA acc kv.1).getD []) kv.2)) d

/-! ## A small regular-expression matcher (`re.search`)

Covers the constructs used by entity rules in the configuration examples:
literal characters, `\d`, `.`, capture groups and the postfix `+`/`*`
quantifiers, with Python's leftmost, greedy-first preference order.
`re.search(...)[0]` is group 0, i.e. the whole matched text, so captures
do not need to be tracked. -/

inductive RE where
  | emp : RE
  | lit : Char → RE
  | dot : RE
  | digit : RE
  | cat : RE → RE → RE
  | plus : RE → RE
  | star : RE → RE
  | grp : RE → RE
deriving DecidableEq, Repr

/-- Fold a parsed atom list into a sequence. -/
def seqList : List RE → RE
  | [] => .emp
  | [r] => r
  | r :: rs => .cat r (seqList rs)

/-- Parse a pattern (fuelled scan), returning the atoms read and the rest
of the input; stops at an unmatched `)`. -/
def parseSeq (env : Unit) : Nat → List Char → List RE × List Char
  | 0, l => ([], l)
  | _ + 1, [] => ([], [])
  | f + 1, c :: rest =>
    if c = ')' then ([], c :: rest)
    else
      let (atom, rest₁) :=
        if c = '\\' then
          match rest with
          | 'd' :: r => (RE.digit, r)
          | x :: r => (RE.lit x, r)
          | [] => (RE.lit '\\', [])
        else if c = '(' then
          let (sub, rest') := parseSeq env f rest
          match rest' with
          | ')' :: r => (RE.grp (seqList sub), r)
          | other => (RE.grp (seqList sub), other)
        else if c = '.' then (RE.dot, rest)
        else (RE.lit c, rest)
      let (atom', rest₂) :=
        match rest₁ with
        | '+' :: r => (RE.plus atom, r)
        | '*' :: r => (RE.star atom, r)
        | other => (atom, other)
      let (others, rest₃) := parseSeq env f rest₂
      (atom' :: others, rest₃)

/-- Compile a pattern string to the matcher's syntax tree. -/
def parseRE (s : String) : RE :=
  seqList (parseSeq () (s.length + 1) s.data).1

/-- All ways a regex can match a prefix of the input, as
(consumed, remaining) pairs in Python's preference order (greedy
quantifiers first).  Fuelled, consuming fuel on each syntactic step. -/
def reM : Nat → RE → List Char → List (List Char × List Char)
  | 0, _, _ => []
  | f + 1, re, s =>
    match re with
    | .emp => [([], s)]
    | .lit c =>
      match s with
      | [] => []
      | x :: xs => if x = c then [([x], xs)] else []
    | .dot =>
      match s with
      | [] => []
      | x :: xs => if x = '\n' then [] else [([x], xs)]
    | .digit =>
      match s with
      | [] => []
      | x :: xs => if x.isDigit then [([x], xs)] else []
    | .grp r => reM f r s
    | .cat a b =>
      (reM f a s).flatMap fun p =>
        (reM f b p.2).map fun q => (p.1 ++ q.1, q.2)
    | .plus r =>
      (reM f r s).flatMap fun p =>
        if p.1 = [] then [p]
        else ((reM f (.plus r) p.2).map fun q => (p.1 ++ q.1, q.2)) ++ [p]
    | .star r =>
      ((reM f r s).flatMap fun p =>
        if p.1 = [] then []
        else (reM f (.star r) p.2).map fun q => (p.1 ++ q.1, q.2)) ++ [([], s)]

/-- `re.search`: try each start position from the left; at the first
position admitting a match, return the preferred (greedy) match, i.e.
group 0.  The fuel bound covers the small embedded patterns. -/
def searchFrom (re : RE) : List Char → Option (List Char)
  | [] =>
    match reM 100 re [] with
    | p :: _ => some p.1
    | [] => none
  | x :: xs =>
    match reM ((x :: xs).length + 100) re (x :: xs) with
    | p :: _ => some p.1
    | [] => searchFrom re xs

/-- `re.search(pattern, path)` returning the full matched text. -/
def reSearch (re : RE) (s : String) : Option String :=
  (searchFrom re s.data).map String.mk

/-! ## Path prefixing (`_prefix_path`) -/

/-- Whether `s` begins with `lead` (kernel-reducible replacement for
byte-level string functions). -/
def chStarts : List Char → List Char → Bool
  | _, [] => true
  | [], _ :: _ => false
  | x :: s', c :: l' => x = c && chStarts s' l'

/-- `str.startswith(p)`. -/
def strStarts (s p : String) : Bool := chStarts s.data p.data

/-- `str.endswith(p)`. -/
def strEnds (s p : String) : Bool := chStarts s.data.reverse p.data.reverse

/-- Python `str.strip(c)`: remove the character from both ends. -/
def stripBoth (c : Char) (s : String) : String :=
  String.mk ((((s.data.dropWhile (· = c)).reverse.dropWhile (· = c)).reverse))

/-- `os.path.join(a, b)` for the shapes arising here: `b` absolute wins,
otherwise concatenate with a single separator. -/
def osJoin (a b : String) : String :=
  if strStarts b "/" then b
  else if a = "" then b
  else if strEnds a "/" then a ++ b
  else a ++ "/" ++ b

/-- `_prefix_path(x, prefix)`: rewrite a `./`-relative glob pattern under
the (absolute) scrape root; other values pass through unchanged. -/
def prefixPath (x : String) (pre : String) : String :=
  if strStarts x "./" then osJoin pre (stripBoth '/' (stripBoth '.' x))
  else x

/-! ## `string.Template.substitute` (used by `_apply_envs`) -/

def isIdStart (c : Char) : Bool := c.isAlpha || c = '_'

def isIdCont (c : Char) : Bool := c.isAlpha || c.isDigit || c = '_'

def braceL : Char := Char.ofNat 123

def braceR : Char := Char.ofNat 125

/-- Fuelled scanner for `Template.substitute`: `$$` is an escaped dollar,
`$name` and `$\x7bname\x7d` substitute from the mapping (KeyError when
missing), anything else after `$` is an invalid placeholder
(ValueError). -/
def templateSubF (env : List (String × String)) : Nat → List Char → Except PyErr (List Char)
  | 0, l => .ok l
  | _ + 1, [] => .ok []
  | f + 1, c :: rest =>
    if c = '$' then
      match rest with
      | [] => .error .valueError
      | d :: rest' =>
        if d = '$' then (templateSubF env f rest').map (fun t => '$' :: t)
        else if d = braceL then
          match rest' with
          | [] => .error .valueError
          | e :: rest'' =>
            if isIdStart e then
              let nm : List Char := e :: rest''.takeWhile isIdCont
              match rest''.dropWhile isIdCont with
              | [] => .error .valueError
              | g :: tail =>
                if g = braceR then
                  match lookupA env (String.mk nm) with
                  | some v => (templateSubF env f tail).map (fun t => v.data ++ t)
                  | none => .error (.keyError (String.mk nm))
                else .error .valueError
            else .error .valueError
        else if isIdStart d then
          let nm : List Char := d :: rest'.takeWhile isIdCont
          match lookupA env (String.mk nm) with
          | some v => (templateSubF env f (rest'.dropWhile isIdCont)).map (fun t => v.data ++ t)
          | none => .error (.keyError (String.mk nm))
        else .error .valueError
    else (templateSubF env f rest).map (fun t => c :: t)

/-- `Template(s).substitute(env)`. -/
def templateSub (env : List (String × String)) (s : String) : Except PyErr String :=
  (templateSubF env (s.data.length + 1) s.data).map String.mk

/-! ## `_substitute_env` (OS environment expansion of `global.env`) -/

/-- Python `\w` with `re.ASCII`. -/
def isWordChar (c : Char) : Bool := c.isAlpha || c.isDigit || c = '_'

/-- `[A-Za-z0-9]`, the class used by the unresolved-variable scan. -/
def isAlnumCh (c : Char) : Bool := c.isAlpha || c.isDigit

/-- Fuelled `os.path.expandvars`: replaces `$name` and `$\x7bname\x7d`
occurrences whose name is bound in the OS environment, leaving everything
else (including unbound placeholders) unchanged; replacements are not
rescanned. -/
def expandvarsF (env : String → Option String) : Nat → List Char → List Char
  | 0, l => l
  | _ + 1, [] => []
  | f + 1, c :: rest =>
    if c = '$' then
      match rest with
      | [] => ['$']
      | d :: rest' =>
        if d = braceL then
          let nm := rest'.takeWhile (fun x => x ≠ braceR)
          match rest'.dropWhile (fun x => x ≠ braceR) with
          | _ :: tail =>
            match env (String.mk nm) with
            | some v => v.data ++ expandvarsF env f tail
            | none => '$' :: braceL :: (nm ++ braceR :: expandvarsF env f tail)
          | [] => '$' :: expandvarsF env f rest
        else if isWordChar d then
          let nm := d :: rest'.takeWhile isWordChar
          match env (String.mk nm) with
          | some v => v.data ++ expandvarsF env f (rest'.dropWhile isWordChar)
          | none => '$' :: (nm ++ expandvarsF env f (rest'.dropWhile isWordChar))
        else '$' :: expandvarsF env f rest
    else c :: expandvarsF env f rest

/-- `os.path.expandvars(s)` against an explicit OS environment. -/
def expandvars (env : String → Option String) (s : String) : String :=
  String.mk (expandvarsF env (s.data.length + 1) s.data)

/-- Fuelled `re.findall("\$[A-Za-z0-9]+", r)`: non-overlapping scan for a
dollar followed by a run of ASCII alphanumerics.  Note the class has no
underscore and the pattern does not match `$\x7b...\x7d` forms. -/
def findUF : Nat → List Char → List String
  | 0, _ => []
  | _ + 1, [] => []
  | f + 1, c :: rest =>
    if c = '$' then
      match rest with
      | [] => []
      | d :: rest' =>
        if isAlnumCh d then
          String.mk ('$' :: d :: rest'.takeWhile isAlnumCh) ::
            findUF f (rest'.dropWhile isAlnumCh)
        else findUF f rest
    else findUF f rest

/-- The unresolved-variable scan of `_substitute_env`. -/
def findUnresolved (l : List Char) : List String :=
  findUF (l.length + 1) l

/-- `SpecConfig._substitute_env`: expand OS environment variables, then
fail with a ValidationError carrying every scanned leftover `$NAME`
occurrence (the logged diagnostics), else return the expanded string. -/
def substituteEnv (osEnv : String → Option String) (s : String) : Except PyErr String :=
  let r := expandvars osEnv s
  match findUnresolved r.data with
  | [] => .ok r
  | us => .error (.validationError us)

/-! ## Entity extraction (`FileSpec._extract_bids_entities`) -/

/-- One path's entity-set: every `bids_map` key, each with a value or
`none` (absent), in `bids_map` order — Python's `res` dict, of which the
group key is `tuple(res.items())`. -/
abbrev EntitySet := List (String × Option RVal)

/-- Evaluate a single entity rule on a path.  A truthy `regex` field
selects regex search (a failed search is caught as an absent value, as is
the TypeError from a non-string pattern); otherwise the rule's `value` is
taken literally.  A missing `value` key is a KeyError. -/
def extractOne (rule : Rule) (path : String) : Except PyErr (Option RVal) :=
  if truthy ((lookupA rule "regex").getD (.bool false)) then
    match lookupA rule "value" with
    | some (.str pat) => .ok ((reSearch (parseRE pat) path).map RVal.str)
    | some (.bool _) => .ok none
    | none => .error (.keyError "value")
  else
    match lookupA rule "value" with
    | some v => .ok (some v)
    | none => .error (.keyError "value")

/-- `_extract_bids_entities(path)`: evaluate every rule of the
`bids_map`, building the entity-set in map order. -/
def extractBidsEntities (bm : BidsMap) (path : String) : Except PyErr EntitySet :=
  match bm with
  | [] => .ok []
  | (k, rule) :: t =>
    match extractOne rule path with
    | .error e => .error e
    | .ok v =>
      match extractBidsEntities t path with
      | .error e => .error e
      | .ok rest => .ok ((k, v) :: rest)

/-! ## Hierarchical grouping (`FileSpec._group_by_hierarchy`) -/

/-- One matched file: its entity-set and the `{"field": f, "path": p}`
mapping, embedded as the (field, path) pair. -/
abbrev Item := EntitySet × (String × String)

/-- The grouper's result: group key (the full entity-set tuple) to the
list of file mappings of the group. -/
abbrev GroupMap := List (EntitySet × List (String × String))

/-- `e[entity]` on an extracted entity-set (always a key of the set,
since the hierarchy is filtered to `bids_map` keys). -/
def lookupES (es : EntitySet) (e : String) : Option RVal :=
  (lookupA es e).bind id

/-- `group_by_entity`: partition the items into value-keyed sub-groups
(insertion ordered) and the spread list of items whose value for the
entity is absent. -/
def groupByEntity (items : List Item) (entity : String) :
    List (RVal × List Item) × List Item :=
  items.foldl
    (fun acc it =>
      match lookupES it.1 entity with
      | none => (acc.1, acc.2 ++ [it])
      | some v => (addGrp acc.1 v it, acc.2))
    ([], [])

/-- `resolve_group`: flatten the value-keyed sub-groups into a mapping
from the full entity-set key to the file mappings. -/
def resolveGroup (found : List (RVal × List Item)) : GroupMap :=
  found.foldl (fun res g => g.2.foldl (fun res it => addGrp res it.1 it.2) res) []

/-- `apply_spread`: append every spread item's file mapping to every
existing group (a no-op for an empty spread list). -/
def applySpread (res : GroupMap) (spread : List Item) : GroupMap :=
  if spread = [] then res
  else res.map (fun g => (g.1, g.2 ++ spread.map (·.2)))

/-- `res.update(c_res)`: dict update, overwriting existing keys in place
and appending new ones. -/
def updateGM (a b : GroupMap) : GroupMap :=
  b.foldl (fun acc kv => setA acc kv.1 kv.2) a

/-- `traverse` after the initial `h.pop(0)` succeeded: group by the
popped entity; at the last hierarchy level resolve and spread, otherwise
recurse into each concrete sub-group, spread, and merge. -/
def traverseNE (e : String) (h : List String) (items : List Item) : GroupMap :=
  let grouped := groupByEntity items e
  match h with
  | [] => applySpread (resolveGroup grouped.1) grouped.2
  | e' :: h' =>
    grouped.1.foldl
      (fun res g => updateGM res (applySpread (traverseNE e' h' g.2) grouped.2))
      []

/-- `traverse(h, entity_specs)`: `h.pop(0)` on an empty hierarchy raises
IndexError, embedded as `none`. -/
def traverse : List String → List Item → Option GroupMap
  | [], _ => none
  | e :: h, items => some (traverseNE e h items)

/-- The hierarchy actually used: `bids_hierarchy` filtered to the
entities available as `bids_map` keys. -/
def filteredHierarchy (hier : List String) (bm : BidsMap) : List String :=
  hier.filter (fun h => (keysA bm).any (fun k => k = h))

/-! ## FileSpec resolution (`FileSpec.gen_args`) -/

/-- Modelled from the spec: the output record `ArgInputSpec` is defined
in `niviz/node_factory.py`, which is not among the sources; per §3 of the
spec it is a plain record carrying `name`, `interface_args`,
`bids_entities` (the ordered group key), the output path and the renderer
`method`, with no behaviour of its own. -/
structure ArgInputSpec where
  name : String
  interfaceArgs : List (String × String)
  bidsEntities : EntitySet
  outSpec : String
  method : String
deriving DecidableEq, Repr

/-- One argument declaration of `filespec[i].args`. -/
structure ArgDecl where
  field : String
  value : RVal
  noBids : Bool
deriving DecidableEq, Repr

/-- A file-spec entry as handed to `FileSpec` (after `SpecConfig`'s
overlay it carries the merged map and resolved hierarchy; `None` for a
hierarchy that was never supplied). -/
structure FSpec where
  name : String
  method : String
  outPath : String
  args : List ArgDecl
  bidsMap : BidsMap
  bidsHierarchy : Option (List String)
deriving DecidableEq, Repr

/-- Python `f"{v}"` on an argument value. -/
def pyStr : RVal → String
  | .str s => s
  | .bool b => if b then "True" else "False"

/-- Extract the entity-sets of every glob hit of one argument, in glob
order. -/
def collectPaths (bm : BidsMap) (field : String) :
    List String → Except PyErr (List Item)
  | [] => .ok []
  | p :: ps =>
    match extractBidsEntities bm p with
    | .error e => .error e
    | .ok es =>
      match collectPaths bm field ps with
      | .error e => .error e
      | .ok rest => .ok ((es, (field, p)) :: rest)

/-- The glob-and-extract loop of `gen_args`: for each argument, prefix a
string value with the absolute base path, glob it (`fs` is the
filesystem's answer to a glob pattern), and extract each hit's
entity-set. -/
def collectBids (fs : String → List String) (absBase : String) (bm : BidsMap) :
    List ArgDecl → Except PyErr (List Item)
  | [] => .ok []
  | a :: rest =>
    let pat :=
      match a.value with
      | .str s => prefixPath s absBase
      | v => pyStr v
    match collectPaths bm a.field (fs pat) with
    | .error e => .error e
    | .ok items =>
      match collectBids fs absBase bm rest with
      | .error e => .error e
      | .ok more => .ok (items ++ more)

/-- The dict comprehension collapsing a group's file mappings into
`interface_args` (per field, the last written path wins). -/
def collapseFields (files : List (String × String)) : List (String × String) :=
  files.foldl (fun m fp => setA m fp.1 fp.2) []

/-- `FileSpec.gen_args(base_path)`: glob and extract, group by the
filtered hierarchy (IndexError when the filtered hierarchy is empty,
TypeError when no hierarchy was ever supplied), and emit one record per
group in mapping order. -/
def genArgs (fs : String → List String) (absBase : String) (sp : FSpec) :
    Except PyErr (List ArgInputSpec) :=
  match collectBids fs absBase sp.bidsMap sp.args with
  | .error e => .error e
  | .ok items =>
    match sp.bidsHierarchy with
    | none => .error .typeError
    | some hier =>
      match traverse (filteredHierarchy hier sp.bidsMap) items with
      | none => .error .indexError
      | some matched =>
        .ok (matched.map fun g =>
          { name := sp.name
            interfaceArgs := collapseFields g.2
            bidsEntities := g.1
            outSpec := sp.outPath
            method := sp.method })

/-! ## SpecConfig (defaults overlay, environment application, driving) -/

/-- The `global` section after loading. -/
structure Defaults where
  env : Option (List (String × String))
  bidsMap : BidsMap
  bidsHierarchy : Option (List String)
deriving DecidableEq, Repr

/-- The loaded configuration state: `defaults` plus the `filespecs`
entries, which `_get_file_arg` mutates in place. -/
structure SpecState where
  defaults : Defaults
  fileSpecs : List FSpec
deriving DecidableEq, Repr

/-- The in-place loop of `_apply_envs`: substitute each string value
(mutating the declaration), keep booleans unchanged (their TypeError is
caught).  On a substitution error the declarations processed so far stay
mutated and the rest keep their loaded values. -/
def applyEnvsGo (env : List (String × String)) :
    List ArgDecl → List ArgDecl × Option PyErr
  | [] => ([], none)
  | a :: rest =>
    match a.value with
    | .str s =>
      match templateSub env s with
      | .ok r =>
        let out := applyEnvsGo env rest
        ({ a with value := .str r } :: out.1, out.2)
      | .error e => (a :: rest, some e)
    | .bool _ =>
      let out := applyEnvsGo env rest
      (a :: out.1, out.2)

/-- `SpecConfig._apply_envs(args)`: identity when no `global.env` is
configured. -/
def applyEnvs (d : Defaults) (args : List ArgDecl) : List ArgDecl × Option PyErr :=
  match d.env with
  | none => (args, none)
  | some env => applyEnvsGo env args

/-- The hierarchy put into the working copy: the spec's own when truthy
(present and non-empty), else the global default (possibly absent). -/
def resolveHier (d : Defaults) (sp : FSpec) : Option (List String) :=
  match sp.bidsHierarchy with
  | none => d.bidsHierarchy
  | some [] => d.bidsHierarchy
  | some l => some l

/-- `SpecConfig._get_file_arg(spec, base_path)`: deep-merge the global
default entity-map into the spec's own map (mutating the original spec),
substitute the environment into the argument values (also mutating the
original), resolve the hierarchy on the working copy only, and run
`gen_args`.  Returns the result together with the mutated original
spec. -/
def getFileArg (d : Defaults) (fs : String → List String) (absBase : String)
    (sp : FSpec) : Except PyErr (List ArgInputSpec) × FSpec :=
  let merged := nestedUpdate sp.bidsMap d.bidsMap
  let hier := resolveHier d sp
  let out := applyEnvs d sp.args
  let mutated := { sp with bidsMap := merged, args := out.1 }
  match out.2 with
  | some e => (.error e, mutated)
  | none => (genArgs fs absBase { mutated with bidsHierarchy := hier }, mutated)

/-- The comprehension of `get_file_args` over the spec list: stops at the
first raised error, leaving later specs untouched. -/
def getFileArgsGo (d : Defaults) (fs : String → List String) (absBase : String) :
    List FSpec → Except PyErr (List (List ArgInputSpec)) × List FSpec
  | [] => (.ok [], [])
  | sp :: rest =>
    match getFileArg d fs absBase sp with
    | (.ok r, sp') =>
      let out := getFileArgsGo d fs absBase rest
      (out.1.map (r :: ·), sp' :: out.2)
    | (.error e, sp') => (.error e, sp' :: rest)

/-- `SpecConfig.get_file_args(base_path)`, with the state it leaves
behind. -/
def getFileArgs (st : SpecState) (fs : String → List String) (absBase : String) :
    Except PyErr (List (List ArgInputSpec)) × SpecState :=
  let out := getFileArgsGo st.defaults fs absBase st.fileSpecs
  (out.1, { st with fileSpecs := out.2 })

/-- Whether a dollar sign directly followed by an ASCII alphanumeric
occurs anywhere in the text, i.e. whether a brace-less `$NAME`
placeholder (as scanned by `_substitute_env`) remains. -/
def hasBraceless : List Char → Bool
  | [] => false
  | ['$'] => false
  | '$' :: c :: rest => isAlnumCh c || hasBraceless (c :: rest)
  | _ :: rest => hasBraceless rest

/-- Whether a scalar argument value is free of dollar signs (so a second
`Template.substitute` pass leaves it unchanged). -/
def noDollarVal : RVal → Bool
  | .str s => s.data.all (fun c => c ≠ '$')
  | .bool _ => true

/-- The in-place mutation `_get_file_arg` performs on a stored file-spec
entry: the original's `bids_map` becomes the deep merge with the global
default map, and the argument values become their substituted forms; the
stored hierarchy, name, method and output path are untouched. -/
def mutSpec (d : Defaults) (sp : FSpec) : FSpec :=
  { sp with
    bidsMap := nestedUpdate sp.bidsMap d.bidsMap
    args := (applyEnvs d sp.args).1 }

/-! ## Concrete configurations used by the claim theorems -/

/-- The §8 end-to-end scenario's entity map:
`bids_map: {subject: {regex: true, value: "sub-(\\d+)"}}`. -/
def subjMap : BidsMap :=
  [("subject", [("regex", .bool true), ("value", .str "sub-(\\d+)")])]

/-- The §8 end-to-end file-spec: one `anat` argument globbing
`./*/anat.nii.gz`, hierarchy `[subject]`. -/
def e2eSpec : FSpec :=
  { name := "anat_qc"
    method := "plot_anat"
    outPath := "out"
    args := [{ field := "anat", value := .str "./*/anat.nii.gz", noBids := false }]
    bidsMap := subjMap
    bidsHierarchy := some ["subject"] }

/-- The §8 scenario's filesystem: the base path `/b` contains
`sub-01/anat.nii.gz` and `sub-02/anat.nii.gz`. -/
def e2eFs : String → List String := fun p =>
  if p = "/b/*/anat.nii.gz" then ["/b/sub-01/anat.nii.gz", "/b/sub-02/anat.nii.gz"]
  else []

/-- Spreading scenario: an `anat` argument whose path carries a subject
entity, plus a `template` argument marked `no_bids` whose single path
also happens to match the subject pattern. -/
def spreadSpec : FSpec :=
  { name := "spread_qc"
    method := "m"
    outPath := "o"
    args :=
      [{ field := "anat", value := .str "./a*", noBids := false },
       { field := "template", value := .str "./t*", noBids := true }]
    bidsMap := [("subject", [("regex", .bool true), ("value", .str "sub\\d+")])]
    bidsHierarchy := some ["subject"] }

/-- Filesystem for the spreading scenario: the template file's path
contains `sub2`, a different subject token than the anat file's
`sub1`. -/
def spreadFs : String → List String := fun p =>
  if p = "/b/a*" then ["/b/a_sub1_anat"]
  else if p = "/b/t*" then ["/b/t_sub2_tpl"]
  else []

/-- A file-spec whose configured hierarchy entity `ses` is not a
`bids_map` key, so the filtered hierarchy is empty. -/
def emptyHierSpec : FSpec :=
  { name := "eh"
    method := "m"
    outPath := "o"
    args := [{ field := "anat", value := .str "./a*", noBids := false }]
    bidsMap := subjMap
    bidsHierarchy := some ["ses"] }

/-- Filesystem for the empty-hierarchy scenario: one matching file. -/
def emptyHierFs : String → List String := fun p =>
  if p = "/b/a*" then ["/b/sub-01/anat.nii.gz"] else []

/-- Two-entity map (`acq` regex and `run` regex) with only `acq` in the
hierarchy. -/
def twoEntSpec : FSpec :=
  { name := "te"
    method := "m"
    outPath := "o"
    args := [{ field := "img", value := .str "./i*", noBids := false }]
    bidsMap :=
      [("acq", [("regex", .bool true), ("value", .str "sub\\d+")]),
       ("run", [("regex", .bool true), ("value", .str "run\\d+")])]
    bidsHierarchy := some ["acq"] }

/-- Filesystem for the two-entity scenario: both files share the `sub1`
token but differ in their `run` token. -/
def twoEntFs : String → List String := fun p =>
  if p = "/b/i*" then ["/b/i_sub1_run1", "/b/i_sub1_run2"] else []

/-- Loaded state refuting idempotence: the resolved `global.env` still
maps `A` to the literal text `${B}` (reachable because the braced form
escapes `_substitute_env`'s scan), so the first resolution rewrites the
argument value `$A` to `${B}` and the second resolves that to `1`. -/
def idemState : SpecState :=
  { defaults :=
      { env := some [("A", "${B}"), ("B", "1")]
        bidsMap := []
        bidsHierarchy := none }
    fileSpecs :=
      [{ name := "n"
         method := "m"
         outPath := "o"
         args := [{ field := "img", value := .str "$A", noBids := false }]
         bidsMap := subjMap
         bidsHierarchy := some ["subject"] }] }

/-- Filesystem for the idempotence counterexample: only the glob pattern
`1` matches anything. -/
def idemFs : String → List String := fun p =>
  if p = "1" then ["/b/sub-03/x"] else []

/-- The record the second (differing) resolution of `idemState`
produces. -/
def idemRec : ArgInputSpec :=
  { name := "n"
    interfaceArgs := [("img", "/b/sub-03/x")]
    bidsEntities := [("subject", some (.str "sub-03"))]
    outSpec := "o"
    method := "m" }

/-- The two records the §8 scenario actually produces: the extracted
subject values are the full matched text `sub-01`/`sub-02` (group 0),
not the digits captured by the group. -/
def e2eOut : List ArgInputSpec :=
  [{ name := "anat_qc"
     interfaceArgs := [("anat", "/b/sub-01/anat.nii.gz")]
     bidsEntities := [("subject", some (.str "sub-01"))]
     outSpec := "out"
     method := "plot_anat" },
   { name := "anat_qc"
     interfaceArgs := [("anat", "/b/sub-02/anat.nii.gz")]
     bidsEntities := [("subject", some (.str "sub-02"))]
     outSpec := "out"
     method := "plot_anat" }]

/-- First record of the spreading counterexample: the `anat` group,
which does not contain the `no_bids` template path. -/
def spreadR1 : ArgInputSpec :=
  { name := "spread_qc"
    interfaceArgs := [("anat", "/b/a_sub1_anat")]
    bidsEntities := [("subject", some (.str "sub1"))]
    outSpec := "o"
    method := "m" }

/-- Second record of the spreading counterexample: the `no_bids`
template path was grouped under its own extracted subject instead of
being spread. -/
def spreadR2 : ArgInputSpec :=
  { name := "spread_qc"
    interfaceArgs := [("template", "/b/t_sub2_tpl")]
    bidsEntities := [("subject", some (.str "sub2"))]
    outSpec := "o"
    method := "m" }

/-- Spreading scenario in which the template path carries no entity
token, so its entity-set is all-absent and it genuinely spreads. -/
def c3wSpec : FSpec :=
  { name := "w"
    method := "m"
    outPath := "o"
    args :=
      [{ field := "anat", value := .str "./a*", noBids := false },
       { field := "template", value := .str "./t*", noBids := true }]
    bidsMap := [("subject", [("regex", .bool true), ("value", .str "sub\\d+")])]
    bidsHierarchy := some ["subject"] }

/-- Filesystem for the all-absent spreading scenario. -/
def c3wFs : String → List String := fun p =>
  if p = "/b/a*" then ["/b/a_sub1"]
  else if p = "/b/t*" then ["/b/tpl"]
  else []

/-- A file-spec whose single hierarchy entity never matches any path. -/
def c9Spec : FSpec :=
  { name := "c9"
    method := "m"
    outPath := "o"
    args := [{ field := "anat", value := .str "./x*", noBids := false }]
    bidsMap := subjMap
    bidsHierarchy := some ["subject"] }

/-- Filesystem for the absent-first-entity scenario: the matched paths
contain no `sub-` token. -/
def c9Fs : String → List String := fun p =>
  if p = "/b/x*" then ["/b/x_one", "/b/x_two"] else []

/-- First record of the two-entity scenario (`acq` shared, `run`
differing). -/
def c5R1 : ArgInputSpec :=
  { name := "te"
    interfaceArgs := [("img", "/b/i_sub1_run1")]
    bidsEntities := [("acq", some (.str "sub1")), ("run", some (.str "run1"))]
    outSpec := "o"
    method := "m" }

/-- Second record of the two-entity scenario. -/
def c5R2 : ArgInputSpec :=
  { name := "te"
    interfaceArgs := [("img", "/b/i_sub1_run2")]
    bidsEntities := [("acq", some (.str "sub1")), ("run", some (.str "run2"))]
    outSpec := "o"
    method := "m" }

/-- Global defaults whose entity-map collides with the spec's own map on
`subject.value`. -/
def c2Defaults : Defaults :=
  { env := none
    bidsMap := [("subject", [("value", .str "S(\\d+)")])]
    bidsHierarchy := none }

/-- A file-spec with its own `subject` rule, colliding with
`c2Defaults`. -/
def c2Spec : FSpec :=
  { name := "c2"
    method := "m"
    outPath := "o"
    args := []
    bidsMap := subjMap
    bidsHierarchy := some ["subject"] }

/-- Loaded state for the frame-effect witness: the global defaults both
extend the entity-map and substitute into the argument value. -/
def c10St : SpecState :=
  { defaults :=
      { env := some [("S", "01")]
        bidsMap := [("ses", [("value", .str "1")])]
        bidsHierarchy := some ["subject"] }
    fileSpecs :=
      [{ name := "n"
         method := "m"
         outPath := "o"
         args := [{ field := "img", value := .str "./x${S}*", noBids := false }]
         bidsMap := subjMap
         bidsHierarchy := none }] }

/-- Loaded state for the idempotence witness: after one resolution every
argument value is dollar-free, so a second resolution is the
identity. -/
def c8wSt : SpecState :=
  { defaults :=
      { env := some [("SUBJ", "01")]
        bidsMap := []
        bidsHierarchy := none }
    fileSpecs :=
      [{ name := "n"
         method := "m"
         outPath := "o"
         args := [{ field := "anat", value := .str "./s${SUBJ}*", noBids := false }]
         bidsMap := subjMap
         bidsHierarchy := some ["subject"] }] }

/-- Filesystem for the idempotence witness. -/
def c8wFs : String → List String := fun p =>
  if p = "/b/s01*" then ["/b/sub-07/f"] else []

/-- Result of resolving the idempotence-witness state. -/
def c8wRes : List (List ArgInputSpec) :=
  [[{ name := "n"
      interfaceArgs := [("anat", "/b/sub-07/f")]
      bidsEntities := [("subject", some (.str "sub-07"))]
      outSpec := "o"
      method := "m" }]]

/-- The idempotence-witness state after its first resolution: the
argument value is the substituted (dollar-free) `./s01*`. -/
def c8wSt' : SpecState :=
  { defaults :=
      { env := some [("SUBJ", "01")]
        bidsMap := []
        bidsHierarchy := none }
    fileSpecs :=
      [{ name := "n"
         method := "m"
         outPath := "o"
         args := [{ field := "anat", value := .str "./s01*", noBids := false }]
         bidsMap := subjMap
         bidsHierarchy := some ["subject"] }] }

/-- Filesystem for the frame-effect witness (no glob matches anything). -/
def c10Fs : String → List String := fun _ => []

/-- The frame-effect witness state after one resolution: merged map,
substituted argument value, untouched hierarchy and defaults. -/
def c10St' : SpecState :=
  { defaults :=
      { env := some [("S", "01")]
        bidsMap := [("ses", [("value", .str "1")])]
        bidsHierarchy := some ["subject"] }
    fileSpecs :=
      [{ name := "n"
         method := "m"
         outPath := "o"
         args := [{ field := "img", value := .str "./x01*", noBids := false }]
         bidsMap :=
           [("subject", [("regex", .bool true), ("value", .str "sub-(\\d+)")]),
            ("ses", [("value", .str "1")])]
         bidsHierarchy := none }] }

/-! ## Association-list lemmas -/

theorem lookupA_setA {κ α : Type} [DecidableEq κ] (l : List (κ × α)) (k q : κ) (v : α) :
    lookupA (setA l k v) q = if k = q then some v else lookupA l q := by
  induction l with
  | nil => simp [setA, lookupA]
  | cons hd t ih =>
    obtain ⟨k', v'⟩ := hd
    by_cases hk : k' = k
    · subst hk
      by_cases hq : k' = q <;> simp [setA, lookupA, hq]
    · by_cases hq : k' = q
      · subst hq
        have : ¬ k = k' := fun h => hk h.symm
        simp [setA, lookupA, hk, this]
      · simp [setA, lookupA, hk, hq, ih]

theorem lookupA_cons {κ α : Type} [DecidableEq κ] (k : κ) (v : α) (t : List (κ × α)) (q : κ) :
    lookupA ((k, v) :: t) q = if k = q then some v else lookupA t q := rfl

theorem setA_cons {κ α : Type} [DecidableEq κ] (k' : κ) (v' : α) (t : List (κ × α)) (k : κ) (v : α) :
    setA ((k', v') :: t) k v = if k' = k then (k', v) :: t else (k', v') :: setA t k v := rfl

theorem keysA_cons {κ α : Type} (p : κ × α) (t : List (κ × α)) :
    keysA (p :: t) = p.1 :: keysA t := rfl

theorem mem_keysA_cons {κ α : Type} {k : κ} {p : κ × α} {t : List (κ × α)} :
    k ∈ keysA (p :: t) ↔ k = p.1 ∨ k ∈ keysA t := by
  rw [keysA_cons, List.mem_cons]

theorem lookupA_eq_none_of_not_mem {κ α : Type} [DecidableEq κ]
    {l : List (κ × α)} {k : κ} (h : k ∉ keysA l) : lookupA l k = none := by
  induction l with
  | nil => rfl
  | cons hd t ih =>
    obtain ⟨k', v'⟩ := hd
    rw [mem_keysA_cons] at h
    push_neg at h
    have hne : ¬ k' = k := fun hh => h.1 (by simp [hh])
    rw [lookupA_cons, if_neg hne, ih h.2]

theorem mem_of_lookupA {κ α : Type} [DecidableEq κ]
    {l : List (κ × α)} {k : κ} {v : α} (h : lookupA l k = some v) : (k, v) ∈ l := by
  induction l with
  | nil => simp [lookupA] at h
  | cons hd t ih =>
    obtain ⟨k', v'⟩ := hd
    by_cases hk : k' = k
    · subst hk
      simp [lookupA] at h
      simp [h]
    · simp [lookupA, hk] at h
      simp [ih h]

theorem setA_eq_of_lookupA {κ α : Type} [DecidableEq κ]
    {l : List (κ × α)} {k : κ} {v : α} (h : lookupA l k = some v) : setA l k v = l := by
  induction l with
  | nil => simp [lookupA] at h
  | cons hd t ih =>
    obtain ⟨k', v'⟩ := hd
    by_cases hk : k' = k
    · subst hk
      simp [lookupA] at h
      simp [setA, h]
    · simp [lookupA, hk] at h
      simp [setA, hk, ih h]

theorem keysA_setA_of_mem {κ α : Type} [DecidableEq κ]
    {l : List (κ × α)} {k : κ} (v : α) (h : k ∈ keysA l) :
    keysA (setA l k v) = keysA l := by
  induction l with
  | nil => simp [keysA] at h
  | cons hd t ih =>
    obtain ⟨k', v'⟩ := hd
    by_cases hk : k' = k
    · simp [setA, hk, keysA]
    · rw [mem_keysA_cons] at h
      rcases h with h | h
      · exact absurd h.symm hk
      · simp [setA, hk, keysA_cons, ih h]

theorem keysA_setA_of_not_mem {κ α : Type} [DecidableEq κ]
    {l : List (κ × α)} {k : κ} (v : α) (h : k ∉ keysA l) :
    keysA (setA l k v) = keysA l ++ [k] := by
  induction l with
  | nil => simp [setA, keysA]
  | cons hd t ih =>
    obtain ⟨k', v'⟩ := hd
    rw [mem_keysA_cons] at h
    push_neg at h
    have hne : ¬ k' = k := fun hh => h.1 (by simp [hh])
    rw [setA_cons, if_neg hne, keysA_cons, keysA_cons, ih h.2]
    rfl

theorem mem_keysA_setA_self {κ α : Type} [DecidableEq κ]
    (l : List (κ × α)) (k : κ) (v : α) : k ∈ keysA (setA l k v) := by
  by_cases h : k ∈ keysA l
  · rw [keysA_setA_of_mem v h]; exact h
  · rw [keysA_setA_of_not_mem v h]; simp

theorem mem_keysA_setA_of_mem {κ α : Type} [DecidableEq κ]
    {l : List (κ × α)} {j : κ} (k : κ) (v : α) (h : j ∈ keysA l) :
    j ∈ keysA (setA l k v) := by
  by_cases hm : k ∈ keysA l
  · rw [keysA_setA_of_mem v hm]; exact h
  · rw [keysA_setA_of_not_mem v hm]; exact List.mem_append_left _ h

theorem nodup_keysA_setA {κ α : Type} [DecidableEq κ]
    {l : List (κ × α)} (k : κ) (v : α) (h : (keysA l).Nodup) :
    (keysA (setA l k v)).Nodup := by
  by_cases hm : k ∈ keysA l
  · rw [keysA_setA_of_mem v hm]; exact h
  · rw [keysA_setA_of_not_mem v hm]
    simp [List.nodup_append, h, hm]

theorem mem_setA {κ α : Type} [DecidableEq κ]
    {l : List (κ × α)} {p : κ × α} {k : κ} {v : α} (h : p ∈ setA l k v) :
    p ∈ l ∨ p = (k, v) := by
  induction l with
  | nil => simp [setA] at h; simp [h]
  | cons hd t ih =>
    obtain ⟨k', v'⟩ := hd
    by_cases hk : k' = k
    · simp [setA, hk] at h
      rcases h with h | h
      · right; simp [h, hk]
      · left; simp [h]
    · simp [setA, hk] at h
      rcases h with h | h
      · left; simp [h]
      · rcases ih h with h' | h'
        · left; simp [h']
        · right; exact h'

theorem assoc_ext {κ α : Type} [DecidableEq κ] :
    ∀ (l₁ l₂ : List (κ × α)), keysA l₁ = keysA l₂ → (keysA l₁).Nodup →
      (∀ q, lookupA l₁ q = lookupA l₂ q) → l₁ = l₂ := by
  intro l₁
  induction l₁ with
  | nil =>
    intro l₂ hk _ _
    cases l₂ with
    | nil => rfl
    | cons hd t => simp [keysA] at hk
  | cons hd t ih =>
    intro l₂ hk hnd hl
    obtain ⟨k, v⟩ := hd
    cases l₂ with
    | nil => simp [keysA] at hk
    | cons hd₂ t₂ =>
      obtain ⟨k₂, v₂⟩ := hd₂
      rw [keysA_cons, keysA_cons, List.cons_eq_cons] at hk
      obtain ⟨hkk, hkt⟩ := hk
      simp only at hkk
      subst hkk
      rw [keysA_cons, List.nodup_cons] at hnd
      have hv : v = v₂ := by
        have hlk := hl k
        rw [lookupA_cons, lookupA_cons, if_pos rfl, if_pos rfl] at hlk
        exact Option.some.inj hlk
      subst hv
      have ht : t = t₂ := by
        apply ih t₂ hkt hnd.2
        intro q
        by_cases hq : q = k
        · subst hq
          rw [lookupA_eq_none_of_not_mem hnd.1,
            lookupA_eq_none_of_not_mem (hkt ▸ hnd.1)]
        · have hlq := hl q
          rw [lookupA_cons, lookupA_cons, if_neg (fun hh => hq hh.symm),
            if_neg (fun hh => hq hh.symm)] at hlq
          exact hlq
      rw [ht]

/-! ## Lemmas about the `setA` fold (`ruleUpdate`, `updateGM`) -/

theorem lookupA_foldSetA_of_not_mem {κ α : Type} [DecidableEq κ] :
    ∀ (u : List (κ × α)) (l : List (κ × α)) (k : κ), k ∉ keysA u →
      lookupA (u.foldl (fun acc kv => setA acc kv.1 kv.2) l) k = lookupA l k := by
  intro u
  induction u with
  | nil => intro l k _; rfl
  | cons hd t ih =>
    intro l k hk
    obtain ⟨j, w⟩ := hd
    rw [mem_keysA_cons] at hk
    push_neg at hk
    rw [List.foldl_cons, ih _ _ hk.2, lookupA_setA,
      if_neg (fun hh => hk.1 hh.symm)]

theorem keysA_foldSetA_of_subset {κ α : Type} [DecidableEq κ] :
    ∀ (u : List (κ × α)) (l : List (κ × α)), (∀ j ∈ keysA u, j ∈ keysA l) →
      keysA (u.foldl (fun acc kv => setA acc kv.1 kv.2) l) = keysA l := by
  intro u
  induction u with
  | nil => intro l _; rfl
  | cons hd t ih =>
    intro l hsub
    obtain ⟨j, w⟩ := hd
    rw [List.foldl_cons]
    have hj : j ∈ keysA l := hsub j (by rw [mem_keysA_cons]; left; rfl)
    rw [ih _ (by intro q hq
                 rw [keysA_setA_of_mem w hj]
                 exact hsub q (by rw [mem_keysA_cons]; right; exact hq)),
      keysA_setA_of_mem w hj]

theorem mem_keysA_foldSetA_mono {κ α : Type} [DecidableEq κ] :
    ∀ (u : List (κ × α)) (l : List (κ × α)) (j : κ), j ∈ keysA l →
      j ∈ keysA (u.foldl (fun acc kv => setA acc kv.1 kv.2) l) := by
  intro u
  induction u with
  | nil => intro l j h; exact h
  | cons hd t ih =>
    intro l j hj
    rw [List.foldl_cons]
    exact ih _ _ (mem_keysA_setA_of_mem _ _ hj)

theorem mem_keysA_foldSetA {κ α : Type} [DecidableEq κ] :
    ∀ (u : List (κ × α)) (l : List (κ × α)) (k : κ), k ∈ keysA u →
      k ∈ keysA (u.foldl (fun acc kv => setA acc kv.1 kv.2) l) := by
  intro u
  induction u with
  | nil => intro l k h; simp [keysA] at h
  | cons hd t ih =>
    intro l k hk
    obtain ⟨j, w⟩ := hd
    rw [List.foldl_cons]
    by_cases hm : k ∈ keysA t
    · exact ih _ _ hm
    · have hkj : k = j := by
        rw [mem_keysA_cons] at hk
        tauto
      subst hkj
      exact mem_keysA_foldSetA_mono _ _ _ (mem_keysA_setA_self l k w)


theorem nodup_keysA_foldSetA {κ α : Type} [DecidableEq κ] :
    ∀ (u : List (κ × α)) (l : List (κ × α)), (keysA l).Nodup →
      (keysA (u.foldl (fun acc kv => setA acc kv.1 kv.2) l)).Nodup := by
  intro u
  induction u with
  | nil => intro l h; exact h
  | cons hd t ih =>
    intro l h
    rw [List.foldl_cons]
    exact ih _ (nodup_keysA_setA _ _ h)

theorem lookupA_foldSetA_indep {κ α : Type} [DecidableEq κ] :
    ∀ (u : List (κ × α)) (k : κ), k ∈ keysA u → ∀ (l₁ l₂ : List (κ × α)),
      lookupA (u.foldl (fun acc kv => setA acc kv.1 kv.2) l₁) k =
      lookupA (u.foldl (fun acc kv => setA acc kv.1 kv.2) l₂) k := by
  intro u
  induction u with
  | nil => intro k h; simp [keysA] at h
  | cons hd t ih =>
    intro k hk l₁ l₂
    obtain ⟨j, w⟩ := hd
    rw [List.foldl_cons, List.foldl_cons]
    by_cases hm : k ∈ keysA t
    · exact ih _ hm _ _
    · have hkj : k = j := by
        rw [mem_keysA_cons] at hk
        tauto
      subst hkj
      rw [lookupA_foldSetA_of_not_mem _ _ _ hm, lookupA_foldSetA_of_not_mem _ _ _ hm,
        lookupA_setA, lookupA_setA, if_pos rfl, if_pos rfl]

theorem foldSetA_idem {κ α : Type} [DecidableEq κ]
    (u l : List (κ × α)) (hnd : (keysA l).Nodup) :
    (u.foldl (fun acc kv => setA acc kv.1 kv.2)
      (u.foldl (fun acc kv => setA acc kv.1 kv.2) l)) =
    u.foldl (fun acc kv => setA acc kv.1 kv.2) l := by
  apply assoc_ext
  · exact keysA_foldSetA_of_subset u _ (fun j hj => mem_keysA_foldSetA u l j hj)
  · exact nodup_keysA_foldSetA u _ (nodup_keysA_foldSetA u l hnd)
  · intro q
    by_cases hq : q ∈ keysA u
    · exact lookupA_foldSetA_indep u q hq _ _
    · rw [lookupA_foldSetA_of_not_mem _ _ _ hq]

/-- Re-merging the same update into an already merged rule is the
identity (inner level of the `bids_map` deep merge). -/
theorem ruleUpdate_idem (d : Rule) (u : Rule) (hnd : (keysA d).Nodup) :
    ruleUpdate (ruleUpdate d u) u = ruleUpdate d u :=
  foldSetA_idem u d hnd

theorem lookupA_nestedUpdate_of_not_mem :
    ∀ (u m : BidsMap) (k : String), k ∉ keysA u →
      lookupA (nestedUpdate m u) k = lookupA m k := by
  intro u
  induction u with
  | nil => intro m k _; rfl
  | cons hd t ih =>
    intro m k hk
    obtain ⟨j, v⟩ := hd
    rw [mem_keysA_cons] at hk
    push_neg at hk
    show lookupA (nestedUpdate (setA m j _) t) k = _
    rw [ih _ _ hk.2, lookupA_setA, if_neg (fun hh => hk.1 (by simp [hh]))]

/-- Re-merging the same default map into an already merged `bids_map` is
the identity, provided the default map has distinct keys and the spec's
rules have distinct inner keys (Python dicts guarantee both). -/
theorem nestedUpdate_idem :
    ∀ (u m : BidsMap), (keysA u).Nodup →
      (∀ k r, lookupA m k = some r → (keysA r).Nodup) →
      nestedUpdate (nestedUpdate m u) u = nestedUpdate m u := by
  intro u
  induction u with
  | nil => intro m _ _; rfl
  | cons hd t ih =>
    intro m hu hm
    obtain ⟨k, v⟩ := hd
    rw [keysA_cons, List.nodup_cons] at hu
    have step :
        ∀ X : BidsMap, nestedUpdate X ((k, v) :: t) =
          nestedUpdate (setA X k (ruleUpdate ((lookupA X k).getD []) v)) t := by
      intro X; rfl
    rw [step, step m]
    set m₁ : BidsMap := setA m k (ruleUpdate ((lookupA m k).getD []) v) with hm₁
    have hr₀ : (keysA ((lookupA m k).getD [])).Nodup := by
      cases hlm : lookupA m k with
      | none => simp [keysA]
      | some r => simpa using hm k r hlm
    have hlook : lookupA (nestedUpdate m₁ t) k =
        some (ruleUpdate ((lookupA m k).getD []) v) := by
      rw [lookupA_nestedUpdate_of_not_mem t m₁ k hu.1, hm₁, lookupA_setA, if_pos rfl]
    have hval : ruleUpdate ((lookupA (nestedUpdate m₁ t) k).getD []) v =
        ruleUpdate ((lookupA m k).getD []) v := by
      rw [hlook]
      exact ruleUpdate_idem _ v hr₀
    rw [hval, setA_eq_of_lookupA (by rw [hlook])]
    apply ih m₁ hu.2
    intro k' r hk'
    rw [hm₁, lookupA_setA] at hk'
    by_cases hkk : k = k'
    · rw [if_pos hkk] at hk'
      have hrv : r = ruleUpdate ((lookupA m k).getD []) v := (Option.some.inj hk').symm
      subst hrv
      exact nodup_keysA_foldSetA v _ hr₀
    · rw [if_neg hkk] at hk'
      exact hm k' r hk'

/-! ## Substitution reaches a fixed point on dollar-free values -/

theorem templateSubF_no_dollar (env : List (String × String)) :
    ∀ (f : Nat) (l : List Char), l.length < f → (∀ c ∈ l, c ≠ '$') →
      templateSubF env f l = .ok l := by
  intro f
  induction f with
  | zero => intro l h _; simp at h
  | succ f ih =>
    intro l hlen hc
    cases l with
    | nil => rfl
    | cons c rest =>
      have hcd : ¬ c = '$' := hc c (by simp)
      simp only [templateSubF, if_neg hcd]
      rw [ih rest (by simp at hlen; omega)
        (fun c' hc' => hc c' (List.mem_cons_of_mem _ hc'))]
      rfl

theorem templateSub_no_dollar (env : List (String × String)) (s : String)
    (h : ∀ c ∈ s.data, c ≠ '$') : templateSub env s = .ok s := by
  unfold templateSub
  rw [templateSubF_no_dollar env (s.data.length + 1) s.data (by omega) h]
  cases s
  rfl

theorem applyEnvsGo_fixed (env : List (String × String)) :
    ∀ args : List ArgDecl, (∀ a ∈ args, noDollarVal a.value = true) →
      applyEnvsGo env args = (args, none) := by
  intro args
  induction args with
  | nil => intro _; rfl
  | cons a rest ih =>
    intro h
    obtain ⟨af, av, ab⟩ := a
    have ha := h ⟨af, av, ab⟩ (by simp)
    have hrest := ih (fun a' ha' => h a' (List.mem_cons_of_mem _ ha'))
    cases av with
    | str s =>
      have hs : ∀ c ∈ s.data, c ≠ '$' := by
        simp only [noDollarVal, List.all_eq_true, decide_eq_true_eq] at ha
        exact ha
      simp only [applyEnvsGo, templateSub_no_dollar env s hs, hrest]
    | bool bv =>
      simp only [applyEnvsGo, hrest]

theorem applyEnvs_fixed (d : Defaults) (args : List ArgDecl)
    (h : ∀ a ∈ args, noDollarVal a.value = true) :
    applyEnvs d args = (args, none) := by
  unfold applyEnvs
  cases d.env with
  | none => rfl
  | some env => exact applyEnvsGo_fixed env args h

/-! ## Second resolution of an already resolved configuration -/

theorem getFileArg_idem (d : Defaults) (g : String → List String) (b : String)
    (sp sp' : FSpec) (r : List ArgInputSpec)
    (h : getFileArg d g b sp = (.ok r, sp'))
    (hdk : (keysA d.bidsMap).Nodup)
    (hrk : ∀ kr ∈ sp.bidsMap, (keysA kr.2).Nodup)
    (hnd : ∀ a ∈ sp'.args, noDollarVal a.value = true) :
    getFileArg d g b sp' = (.ok r, sp') := by
  simp only [getFileArg] at h ⊢
  cases ho : (applyEnvs d sp.args).2 with
  | some e => rw [ho] at h; simp [Prod.ext_iff] at h
  | none =>
    rw [ho] at h
    rw [Prod.ext_iff] at h
    simp only at h
    obtain ⟨hgen, hmut⟩ := h
    have e1 : applyEnvs d sp'.args = (sp'.args, none) := applyEnvs_fixed d sp'.args hnd
    have e2 : nestedUpdate sp'.bidsMap d.bidsMap = sp'.bidsMap := by
      rw [← hmut]
      exact nestedUpdate_idem d.bidsMap sp.bidsMap hdk
        (fun k rr hl => hrk (k, rr) (mem_of_lookupA hl))
    have e3 : resolveHier d sp' = resolveHier d sp := by
      unfold resolveHier
      rw [← hmut]
    subst hmut
    simp only [e1, e2, e3]
    rw [Prod.ext_iff]
    refine ⟨?_, rfl⟩
    exact hgen

theorem getFileArgsGo_idem (d : Defaults) (g : String → List String) (b : String) :
    ∀ (l : List FSpec) (res : List (List ArgInputSpec)) (l' : List FSpec),
      getFileArgsGo d g b l = (.ok res, l') →
      (keysA d.bidsMap).Nodup →
      (∀ sp ∈ l, ∀ kr ∈ sp.bidsMap, (keysA kr.2).Nodup) →
      (∀ sp ∈ l', ∀ a ∈ sp.args, noDollarVal a.value = true) →
      getFileArgsGo d g b l' = (.ok res, l') := by
  intro l
  induction l with
  | nil =>
    intro res l' h _ _ _
    simp only [getFileArgsGo, Prod.ext_iff] at h
    obtain ⟨h1, h2⟩ := h
    cases h1
    rw [← h2]
    rfl
  | cons sp rest ih =>
    intro res l' h hdk hrk hnd
    simp only [getFileArgsGo] at h
    cases hga : getFileArg d g b sp with
    | mk exc sp₀ =>
      rw [hga] at h
      cases exc with
      | error e => simp [Prod.ext_iff] at h
      | ok r =>
        simp only at h
        cases hgo : getFileArgsGo d g b rest with
        | mk exc2 rest' =>
          rw [hgo] at h
          cases exc2 with
          | error e => simp [Prod.ext_iff, Except.map] at h
          | ok res2 =>
            simp only [Except.map, Prod.ext_iff] at h
            obtain ⟨h1, h2⟩ := h
            have hres : res = r :: res2 := by
              cases h1
              rfl
            subst hres
            rw [← h2]
            have hsp₀ : getFileArg d g b sp₀ = (.ok r, sp₀) :=
              getFileArg_idem d g b sp sp₀ r hga hdk
                (fun kr hkr => hrk sp (by simp) kr hkr)
                (fun a ha => hnd sp₀ (by rw [← h2]; simp) a ha)
            have hrest' : getFileArgsGo d g b rest' = (.ok res2, rest') :=
              ih res2 rest' hgo hdk
                (fun sp'' hsp'' => hrk sp'' (List.mem_cons_of_mem _ hsp''))
                (fun sp'' hsp'' => hnd sp'' (by rw [← h2]; exact List.mem_cons_of_mem _ hsp''))
            simp only [getFileArgsGo, hsp₀, hrest', Except.map]

theorem getFileArgsGo_mut (d : Defaults) (g : String → List String) (b : String) :
    ∀ (l : List FSpec) (res : List (List ArgInputSpec)) (l' : List FSpec),
      getFileArgsGo d g b l = (.ok res, l') → l' = l.map (mutSpec d) := by
  intro l
  induction l with
  | nil =>
    intro res l' h
    simp only [getFileArgsGo, Prod.ext_iff] at h
    rw [← h.2]
    rfl
  | cons sp rest ih =>
    intro res l' h
    simp only [getFileArgsGo] at h
    cases hga : getFileArg d g b sp with
    | mk exc sp₀ =>
      rw [hga] at h
      have hsp₀ : sp₀ = mutSpec d sp := by
        simp only [getFileArg] at hga
        cases ho : (applyEnvs d sp.args).2 <;> rw [ho] at hga <;>
          (rw [Prod.ext_iff] at hga; simp only at hga; rw [← hga.2]; rfl)
      cases exc with
      | error e => simp [Prod.ext_iff] at h
      | ok r =>
        simp only at h
        cases hgo : getFileArgsGo d g b rest with
        | mk exc2 rest' =>
          rw [hgo] at h
          cases exc2 with
          | error e => simp [Prod.ext_iff, Except.map] at h
          | ok res2 =>
            simp only [Except.map, Prod.ext_iff] at h
            rw [← h.2, List.map_cons, ← hsp₀, ih res2 rest' hgo]

/-! ## Grouping lemmas -/

theorem mem_addGrp_files {κ α : Type} [DecidableEq κ] :
    ∀ (l : List (κ × List α)) (k : κ) (x : α) (g : κ × List α) (y : α),
      g ∈ addGrp l k x → y ∈ g.2 → (∃ g₀ ∈ l, y ∈ g₀.2) ∨ y = x := by
  intro l
  induction l with
  | nil =>
    intro k x g y hg hy
    simp [addGrp] at hg
    subst hg
    simp at hy
    exact Or.inr hy
  | cons hd t ih =>
    intro k x g y hg hy
    obtain ⟨k', gl⟩ := hd
    by_cases hk : k' = k
    · simp only [addGrp, if_pos hk] at hg
      rcases List.mem_cons.mp hg with hg | hg
      · subst hg
        simp only at hy
        rcases List.mem_append.mp hy with hy | hy
        · exact Or.inl ⟨(k', gl), by simp, hy⟩
        · simp at hy
          exact Or.inr hy
      · exact Or.inl ⟨g, List.mem_cons_of_mem _ hg, hy⟩
    · simp only [addGrp, if_neg hk] at hg
      rcases List.mem_cons.mp hg with hg | hg
      · subst hg
        exact Or.inl ⟨(k', gl), by simp, hy⟩
      · rcases ih k x g y hg hy with ⟨g₀, hg₀, hy₀⟩ | hx
        · exact Or.inl ⟨g₀, List.mem_cons_of_mem _ hg₀, hy₀⟩
        · exact Or.inr hx

theorem keysA_addGrp_of_mem {κ α : Type} [DecidableEq κ]
    {l : List (κ × List α)} {k : κ} (x : α) (h : k ∈ keysA l) :
    keysA (addGrp l k x) = keysA l := by
  induction l with
  | nil => simp [keysA] at h
  | cons hd t ih =>
    obtain ⟨k', gl⟩ := hd
    by_cases hk : k' = k
    · simp [addGrp, hk, keysA]
    · rw [mem_keysA_cons] at h
      rcases h with h | h
      · exact absurd h.symm hk
      · simp [addGrp, hk, keysA_cons, ih h]

theorem keysA_addGrp_of_not_mem {κ α : Type} [DecidableEq κ]
    {l : List (κ × List α)} {k : κ} (x : α) (h : k ∉ keysA l) :
    keysA (addGrp l k x) = keysA l ++ [k] := by
  induction l with
  | nil => simp [addGrp, keysA]
  | cons hd t ih =>
    obtain ⟨k', gl⟩ := hd
    rw [mem_keysA_cons] at h
    push_neg at h
    have hne : ¬ k' = k := fun hh => h.1 (by simp [hh])
    rw [show addGrp ((k', gl) :: t) k x = (k', gl) :: addGrp t k x from by
        simp [addGrp, hne],
      keysA_cons, keysA_cons, ih h.2]
    rfl

theorem nodup_keysA_addGrp {κ α : Type} [DecidableEq κ]
    {l : List (κ × List α)} (k : κ) (x : α) (h : (keysA l).Nodup) :
    (keysA (addGrp l k x)).Nodup := by
  by_cases hm : k ∈ keysA l
  · rw [keysA_addGrp_of_mem x hm]; exact h
  · rw [keysA_addGrp_of_not_mem x hm]
    simp [List.nodup_append, h, hm]

theorem groupByEntity_eq (items : List Item) (e : String) :
    groupByEntity items e =
      items.foldl
        (fun acc it =>
          match lookupES it.1 e with
          | none => (acc.1, acc.2 ++ [it])
          | some v => (addGrp acc.1 v it, acc.2))
        ([], []) := rfl

theorem groupByEntity_snd_mem_aux (e : String) (es : EntitySet) (fr : String × String) :
    ∀ (items : List Item) (acc : List (RVal × List Item) × List Item),
      ((es, fr) ∈ acc.2 ∨ ((es, fr) ∈ items ∧ lookupES es e = none)) →
      (es, fr) ∈ (items.foldl
        (fun acc it =>
          match lookupES it.1 e with
          | none => (acc.1, acc.2 ++ [it])
          | some v => (addGrp acc.1 v it, acc.2))
        acc).2 := by
  intro items
  induction items with
  | nil =>
    intro acc h
    rcases h with h | h
    · exact h
    · simp at h
  | cons it rest ih =>
    intro acc h
    rw [List.foldl_cons]
    apply ih
    rcases h with h | ⟨hm, hnone⟩
    · left
      cases hit : lookupES it.1 e with
      | none => simp only [hit]; exact List.mem_append_left _ h
      | some v => simp only [hit]; exact h
    · rcases List.mem_cons.mp hm with hm | hm
      · left
        rw [← hm]
        simp only [hnone]
        simp
      · exact Or.inr ⟨hm, hnone⟩

theorem groupByEntity_snd_mem (items : List Item) (e : String) (es : EntitySet)
    (fr : String × String) (hm : (es, fr) ∈ items) (hnone : lookupES es e = none) :
    (es, fr) ∈ (groupByEntity items e).2 := by
  rw [groupByEntity_eq]
  exact groupByEntity_snd_mem_aux e es fr items ([], []) (Or.inr ⟨hm, hnone⟩)

theorem groupByEntity_found_empty_aux (e : String) :
    ∀ (items : List Item) (acc : List (RVal × List Item) × List Item),
      acc.1 = [] → (∀ it ∈ items, lookupES it.1 e = none) →
      (items.foldl
        (fun acc it =>
          match lookupES it.1 e with
          | none => (acc.1, acc.2 ++ [it])
          | some v => (addGrp acc.1 v it, acc.2))
        acc).1 = [] := by
  intro items
  induction items with
  | nil => intro acc h _; exact h
  | cons it rest ih =>
    intro acc h hall
    rw [List.foldl_cons]
    have hit := hall it (by simp)
    apply ih
    · simp only [hit]
      exact h
    · exact fun it' h' => hall it' (List.mem_cons_of_mem _ h')

theorem groupByEntity_found_empty (items : List Item) (e : String)
    (hall : ∀ it ∈ items, lookupES it.1 e = none) :
    (groupByEntity items e).1 = [] := by
  rw [groupByEntity_eq]
  exact groupByEntity_found_empty_aux e items ([], []) rfl hall

theorem groupByEntity_sub_aux (e : String) (P : Item → Prop) :
    ∀ (items : List Item) (acc : List (RVal × List Item) × List Item),
      (∀ vg ∈ acc.1, ∀ it ∈ vg.2, P it) → (∀ it ∈ acc.2, P it) →
      (∀ it ∈ items, P it) →
      (∀ vg ∈ (items.foldl
        (fun acc it =>
          match lookupES it.1 e with
          | none => (acc.1, acc.2 ++ [it])
          | some v => (addGrp acc.1 v it, acc.2))
        acc).1, ∀ it ∈ vg.2, P it) ∧
      (∀ it ∈ (items.foldl
        (fun acc it =>
          match lookupES it.1 e with
          | none => (acc.1, acc.2 ++ [it])
          | some v => (addGrp acc.1 v it, acc.2))
        acc).2, P it) := by
  intro items
  induction items with
  | nil =>
    intro acc h1 h2 _
    exact ⟨h1, h2⟩
  | cons it rest ih =>
    intro acc h1 h2 hall
    rw [List.foldl_cons]
    have hit := hall it (by simp)
    apply ih
    · cases hl : lookupES it.1 e with
      | none => simp only [hl]; exact h1
      | some v =>
        simp only [hl]
        intro vg hvg it' hit'
        rcases mem_addGrp_files acc.1 v it vg it' hvg hit' with ⟨g₀, hg₀, hy⟩ | hx
        · exact h1 g₀ hg₀ it' hy
        · rw [hx]; exact hit
    · cases hl : lookupES it.1 e with
      | none =>
        simp only [hl]
        intro it' hit'
        rcases List.mem_append.mp hit' with h | h
        · exact h2 it' h
        · simp at h
          rw [h]; exact hit
      | some v => simp only [hl]; exact h2
    · exact fun it' h' => hall it' (List.mem_cons_of_mem _ h')

theorem groupByEntity_sub (items : List Item) (e : String) (P : Item → Prop)
    (hall : ∀ it ∈ items, P it) :
    (∀ vg ∈ (groupByEntity items e).1, ∀ it ∈ vg.2, P it) ∧
    (∀ it ∈ (groupByEntity items e).2, P it) := by
  rw [groupByEntity_eq]
  exact groupByEntity_sub_aux e P items ([], []) (by simp) (by simp) hall

theorem addFold_files (P : String × String → Prop) :
    ∀ (its : List Item) (acc : GroupMap),
      (∀ g ∈ acc, ∀ fr ∈ g.2, P fr) → (∀ it ∈ its, P it.2) →
      ∀ g ∈ its.foldl (fun res it => addGrp res it.1 it.2) acc, ∀ fr ∈ g.2, P fr := by
  intro its
  induction its with
  | nil => intro acc hacc _; exact hacc
  | cons it rest ih =>
    intro acc hacc hits
    rw [List.foldl_cons]
    apply ih
    · intro g hg fr hfr
      rcases mem_addGrp_files acc it.1 it.2 g fr hg hfr with ⟨g₀, hg₀, hy⟩ | hx
      · exact hacc g₀ hg₀ fr hy
      · rw [hx]; exact hits it (by simp)
    · exact fun it' h' => hits it' (List.mem_cons_of_mem _ h')

theorem resolveGroup_files (P : String × String → Prop)
    (found : List (RVal × List Item))
    (hfound : ∀ vg ∈ found, ∀ it ∈ vg.2, P it.2) :
    ∀ g ∈ resolveGroup found, ∀ fr ∈ g.2, P fr := by
  unfold resolveGroup
  suffices haux : ∀ (fd : List (RVal × List Item)) (acc : GroupMap),
      (∀ g ∈ acc, ∀ fr ∈ g.2, P fr) → (∀ vg ∈ fd, ∀ it ∈ vg.2, P it.2) →
      ∀ g ∈ fd.foldl (fun res g => g.2.foldl (fun res it => addGrp res it.1 it.2) res) acc,
        ∀ fr ∈ g.2, P fr by
    exact haux found [] (by simp) hfound
  intro fd
  induction fd with
  | nil => intro acc hacc _; exact hacc
  | cons vg rest ih =>
    intro acc hacc hfd
    rw [List.foldl_cons]
    apply ih
    · exact addFold_files P vg.2 acc hacc (hfd vg (by simp))
    · exact fun vg' h' => hfd vg' (List.mem_cons_of_mem _ h')

theorem nodup_addFold :
    ∀ (its : List Item) (acc : GroupMap), (keysA acc).Nodup →
      (keysA (its.foldl (fun res it => addGrp res it.1 it.2) acc)).Nodup := by
  intro its
  induction its with
  | nil => intro acc h; exact h
  | cons it rest ih =>
    intro acc h
    rw [List.foldl_cons]
    exact ih _ (nodup_keysA_addGrp _ _ h)

theorem nodup_resolveGroup (found : List (RVal × List Item)) :
    (keysA (resolveGroup found)).Nodup := by
  unfold resolveGroup
  suffices haux : ∀ (fd : List (RVal × List Item)) (acc : GroupMap), (keysA acc).Nodup →
      (keysA (fd.foldl (fun res g => g.2.foldl (fun res it => addGrp res it.1 it.2) res) acc)).Nodup by
    exact haux found [] (by simp [keysA])
  intro fd
  induction fd with
  | nil => intro acc h; exact h
  | cons vg rest ih =>
    intro acc h
    rw [List.foldl_cons]
    exact ih _ (nodup_addFold vg.2 acc h)

theorem applySpread_keys (res : GroupMap) (sp : List Item) :
    keysA (applySpread res sp) = keysA res := by
  unfold applySpread
  split
  · rfl
  · simp [keysA, List.map_map]

theorem applySpread_mem_spread (res : GroupMap) (sp : List Item) (it : Item)
    (hit : it ∈ sp) : ∀ g ∈ applySpread res sp, it.2 ∈ g.2 := by
  unfold applySpread
  rw [if_neg (List.ne_nil_of_mem hit)]
  intro g hg
  rcases List.mem_map.mp hg with ⟨g₀, _, hgeq⟩
  rw [← hgeq]
  exact List.mem_append_right _ (List.mem_map.mpr ⟨it, hit, rfl⟩)

theorem applySpread_files (P : String × String → Prop) (res : GroupMap) (sp : List Item)
    (hres : ∀ g ∈ res, ∀ fr ∈ g.2, P fr) (hsp : ∀ it ∈ sp, P it.2) :
    ∀ g ∈ applySpread res sp, ∀ fr ∈ g.2, P fr := by
  unfold applySpread
  split
  · exact hres
  · intro g hg fr hfr
    rcases List.mem_map.mp hg with ⟨g₀, hg₀, hgeq⟩
    rw [← hgeq] at hfr
    rcases List.mem_append.mp hfr with h | h
    · exact hres g₀ hg₀ fr h
    · rcases List.mem_map.mp h with ⟨it, hit, hiteq⟩
      rw [← hiteq]
      exact hsp it hit

theorem mem_foldSetA {κ α : Type} [DecidableEq κ] :
    ∀ (b : List (κ × α)) (acc : List (κ × α)) (g : κ × α),
      g ∈ b.foldl (fun acc kv => setA acc kv.1 kv.2) acc → g ∈ acc ∨ g ∈ b := by
  intro b
  induction b with
  | nil => intro acc g h; exact Or.inl h
  | cons kv rest ih =>
    intro acc g h
    rw [List.foldl_cons] at h
    rcases ih _ g h with h' | h'
    · rcases mem_setA h' with h'' | h''
      · exact Or.inl h''
      · right
        rw [h'']
        simp
    · exact Or.inr (List.mem_cons_of_mem _ h')

theorem mem_updateGM (a b : GroupMap) (g : EntitySet × List (String × String))
    (h : g ∈ updateGM a b) : g ∈ a ∨ g ∈ b :=
  mem_foldSetA b a g h

theorem traverseNE_nil_eq (e : String) (items : List Item) :
    traverseNE e [] items =
      applySpread (resolveGroup (groupByEntity items e).1) (groupByEntity items e).2 := rfl

theorem traverseNE_cons_eq (e e' : String) (h' : List String) (items : List Item) :
    traverseNE e (e' :: h') items =
      (groupByEntity items e).1.foldl
        (fun res g =>
          updateGM res (applySpread (traverseNE e' h' g.2) (groupByEntity items e).2))
        [] := rfl

theorem traverseNE_files (P : String × String → Prop) :
    ∀ (h : List String) (e : String) (items : List Item),
      (∀ it ∈ items, P it.2) →
      ∀ g ∈ traverseNE e h items, ∀ fr ∈ g.2, P fr := by
  intro h
  induction h with
  | nil =>
    intro e items hall g hg fr hfr
    have hsub := groupByEntity_sub items e (fun it => P it.2) hall
    rw [traverseNE_nil_eq] at hg
    exact applySpread_files P _ _ (resolveGroup_files P _ hsub.1) hsub.2 g hg fr hfr
  | cons e' h' ih =>
    intro e items hall g hg fr hfr
    have hsub := groupByEntity_sub items e (fun it => P it.2) hall
    rw [traverseNE_cons_eq] at hg
    suffices haux : ∀ (fd : List (RVal × List Item)) (acc : GroupMap),
        (∀ g ∈ acc, ∀ fr ∈ g.2, P fr) → (∀ vg ∈ fd, ∀ it ∈ vg.2, P it.2) →
        ∀ g ∈ fd.foldl
          (fun res g =>
            updateGM res (applySpread (traverseNE e' h' g.2) (groupByEntity items e).2))
          acc, ∀ fr ∈ g.2, P fr by
      exact haux _ [] (by simp) hsub.1 g hg fr hfr
    intro fd
    induction fd with
    | nil => intro acc hacc _; exact hacc
    | cons vg rest ihf =>
      intro acc hacc hfd
      rw [List.foldl_cons]
      apply ihf
      · intro g' hg' fr' hfr'
        rcases mem_updateGM _ _ _ hg' with hin | hin
        · exact hacc g' hin fr' hfr'
        · exact applySpread_files P _ _ (ih e' vg.2 (hfd vg (by simp))) hsub.2 g' hin fr' hfr'
      · exact fun vg' h' => hfd vg' (List.mem_cons_of_mem _ h')

theorem traverseNE_spread (es₀ : EntitySet) (fr₀ : String × String) :
    ∀ (h : List String) (e : String) (items : List Item),
      (es₀, fr₀) ∈ items → lookupES es₀ e = none →
      ∀ g ∈ traverseNE e h items, fr₀ ∈ g.2 := by
  intro h
  cases h with
  | nil =>
    intro e items hm hnone g hg
    have hsp : (es₀, fr₀) ∈ (groupByEntity items e).2 :=
      groupByEntity_snd_mem items e es₀ fr₀ hm hnone
    rw [traverseNE_nil_eq] at hg
    exact applySpread_mem_spread _ _ (es₀, fr₀) hsp g hg
  | cons e' h' =>
    intro e items hm hnone g hg
    have hsp : (es₀, fr₀) ∈ (groupByEntity items e).2 :=
      groupByEntity_snd_mem items e es₀ fr₀ hm hnone
    rw [traverseNE_cons_eq] at hg
    suffices haux : ∀ (fd : List (RVal × List Item)) (acc : GroupMap),
        (∀ g ∈ acc, fr₀ ∈ g.2) →
        ∀ g ∈ fd.foldl
          (fun res g =>
            updateGM res (applySpread (traverseNE e' h' g.2) (groupByEntity items e).2))
          acc, fr₀ ∈ g.2 by
      exact haux _ [] (by simp) g hg
    intro fd
    induction fd with
    | nil => intro acc hacc; exact hacc
    | cons vg rest ihf =>
      intro acc hacc
      rw [List.foldl_cons]
      apply ihf
      intro g' hg'
      rcases mem_updateGM _ _ _ hg' with hin | hin
      · exact hacc g' hin
      · exact applySpread_mem_spread _ _ (es₀, fr₀) hsp g' hin

theorem nodup_traverseNE :
    ∀ (h : List String) (e : String) (items : List Item),
      (keysA (traverseNE e h items)).Nodup := by
  intro h
  cases h with
  | nil =>
    intro e items
    rw [traverseNE_nil_eq, applySpread_keys]
    exact nodup_resolveGroup _
  | cons e' h' =>
    intro e items
    rw [traverseNE_cons_eq]
    suffices haux : ∀ (fd : List (RVal × List Item)) (acc : GroupMap), (keysA acc).Nodup →
        (keysA (fd.foldl
          (fun res g =>
            updateGM res (applySpread (traverseNE e' h' g.2) (groupByEntity items e).2))
          acc)).Nodup by
      exact haux _ [] (by simp [keysA])
    intro fd
    induction fd with
    | nil => intro acc h; exact h
    | cons vg rest ihf =>
      intro acc h
      rw [List.foldl_cons]
      apply ihf
      exact nodup_keysA_foldSetA _ acc h

theorem lookupA_collapse_aux (f₀ p₀ : String) :
    ∀ (files : List (String × String)) (acc : List (String × String)),
      (∀ fp ∈ files, fp.1 = f₀ → fp.2 = p₀) →
      (lookupA acc f₀ = some p₀ ∨ (f₀, p₀) ∈ files) →
      lookupA (files.foldl (fun m fp => setA m fp.1 fp.2) acc) f₀ = some p₀ := by
  intro files
  induction files with
  | nil =>
    intro acc _ h
    rcases h with h | h
    · exact h
    · simp at h
  | cons fp rest ih =>
    intro acc huniq h
    rw [List.foldl_cons]
    apply ih
    · exact fun fp' h' hf => huniq fp' (List.mem_cons_of_mem _ h') hf
    · rcases h with h | h
      · left
        by_cases hf : fp.1 = f₀
        · rw [lookupA_setA, if_pos hf, huniq fp (by simp) hf]
        · rw [lookupA_setA, if_neg hf]
          exact h
      · rcases List.mem_cons.mp h with h | h
        · left
          rw [← h, lookupA_setA, if_pos rfl]
        · exact Or.inr h

theorem lookupA_collapseFields (files : List (String × String)) (f₀ p₀ : String)
    (hmem : (f₀, p₀) ∈ files) (huniq : ∀ fp ∈ files, fp.1 = f₀ → fp.2 = p₀) :
    lookupA (collapseFields files) f₀ = some p₀ := by
  unfold collapseFields
  exact lookupA_collapse_aux f₀ p₀ files [] huniq (Or.inr hmem)

/-! ## The unresolved-variable scan misses nothing brace-less -/

theorem hasBraceless_cons_ne (c : Char) (rest : List Char) (hc : ¬ c = '$') :
    hasBraceless (c :: rest) = hasBraceless rest := by
  cases rest with
  | nil => simp [hasBraceless, hc]
  | cons d rest' => simp [hasBraceless, hc]

theorem no_braceless_of_findUF_nil :
    ∀ (f : Nat) (l : List Char), l.length < f → findUF f l = [] →
      hasBraceless l = false := by
  intro f
  induction f with
  | zero => intro l h _; simp at h
  | succ f ih =>
    intro l hlen hf
    cases l with
    | nil => rfl
    | cons c rest =>
      by_cases hc : c = '$'
      · subst hc
        cases rest with
        | nil => rfl
        | cons d rest' =>
          by_cases hd : isAlnumCh d
          · simp [findUF, hd] at hf
          · simp only [findUF, if_pos rfl, hd, Bool.false_eq_true, if_false] at hf
            have hrec := ih (d :: rest') (by simp at hlen ⊢; omega) hf
            show (isAlnumCh d || hasBraceless (d :: rest')) = false
            rw [hrec]
            simp [hd]
      · simp only [findUF, if_neg hc] at hf
        rw [hasBraceless_cons_ne c rest hc]
        exact ih rest (by simp at hlen; omega) hf

/-! ## Claim theorems -/

/-- C5 (corrected): two distinct emitted records can agree on every
hierarchy entity: with `bids_map` entities `acq` and `run` but hierarchy
`[acq]`, the two matched files share the `acq` value `sub1` yet produce
two records, whose keys differ only in the non-hierarchy entity `run`. -/
theorem c5_counterexample :
    genArgs twoEntFs "/b" twoEntSpec = .ok [c5R1, c5R2] ∧
    c5R1.bidsEntities ≠ c5R2.bidsEntities ∧
    filteredHierarchy ["acq"] twoEntSpec.bidsMap = ["acq"] ∧
    lookupES c5R1.bidsEntities "acq" = lookupES c5R2.bidsEntities "acq" := by
  decide

/-- C5 (amended): what does hold is that the key-tuples of the emitted
records of one file-spec are pairwise distinct — the grouper's result is
a mapping with nodup keys — though two keys may agree on every entity of
the active hierarchy and differ only in a non-hierarchy entity. -/
theorem c5_amended_distinct_keys (fs : String → List String) (absBase : String)
    (sp : FSpec) (out : List ArgInputSpec)
    (hok : genArgs fs absBase sp = .ok out) :
    (out.map (fun r => r.bidsEntities)).Nodup := by
  unfold genArgs at hok
  split at hok
  · exact absurd hok (by simp)
  · split at hok
    · exact absurd hok (by simp)
    · split at hok
      · exact absurd hok (by simp)
      · rename_i a items ha b hier hb c matched htr
        have hout := Except.ok.inj hok
        cases hfil : filteredHierarchy hier sp.bidsMap with
        | nil =>
          rw [hfil] at htr
          exact absurd htr (by simp [traverse])
        | cons e h =>
          rw [hfil] at htr
          simp only [traverse, Option.some.injEq] at htr
          rw [← hout, ← htr, List.map_map]
          show (keysA (traverseNE e h items)).Nodup
          exact nodup_traverseNE h e items

/-- Witness for the amended C5 theorem at the two-entity scenario. -/
theorem c5_amended_distinct_keys_witness :
    (([c5R1, c5R2]).map (fun r => r.bidsEntities)).Nodup :=
  c5_amended_distinct_keys twoEntFs "/b" twoEntSpec [c5R1, c5R2] (by decide)

/-- C3 (corrected): the `no_bids` flag is read but never used by
`gen_args`, so a `no_bids` argument whose matched path happens to carry
an entity token is grouped under that entity instead of being attached
to every record: the first emitted record has no `template` entry. -/
theorem c3_counterexample :
    genArgs spreadFs "/b" spreadSpec = .ok [spreadR1, spreadR2] ∧
    lookupA spreadR1.interfaceArgs "template" = none ∧
    (spreadSpec.args.map (fun a => a.noBids)) = [false, true] := by
  decide

/-- C3 (amended): spreading is driven purely by absent entity values: a
matched path whose entity-set is absent on every entity of the filtered
hierarchy is appended to every emitted group, and (when it is the only
path for its field) appears with the same path value in every record's
`interface_args`.  The `no_bids` flag itself is ignored. -/
theorem c3_amended_spread (fs : String → List String) (absBase : String) (sp : FSpec)
    (items : List Item) (hier : List String) (out : List ArgInputSpec)
    (es₀ : EntitySet) (f₀ p₀ : String)
    (hitems : collectBids fs absBase sp.bidsMap sp.args = .ok items)
    (hh : sp.bidsHierarchy = some hier)
    (hok : genArgs fs absBase sp = .ok out)
    (hmem : (es₀, (f₀, p₀)) ∈ items)
    (habs : ∀ e ∈ filteredHierarchy hier sp.bidsMap, lookupES es₀ e = none)
    (huniq : ∀ it ∈ items, it.2.1 = f₀ → it.2.2 = p₀) :
    ∀ r ∈ out, lookupA r.interfaceArgs f₀ = some p₀ := by
  unfold genArgs at hok
  split at hok
  · exact absurd hok (by simp)
  · split at hok
    · exact absurd hok (by simp)
    · split at hok
      · exact absurd hok (by simp)
      · rename_i a items' ha b hier' hb c matched htr
        have hi : items' = items := by
          rw [ha] at hitems
          exact Except.ok.inj hitems
        have hr : hier' = hier := by
          rw [hb] at hh
          exact Option.some.inj hh
        subst hi
        subst hr
        have hout := Except.ok.inj hok
        cases hfil : filteredHierarchy hier' sp.bidsMap with
        | nil =>
          rw [hfil] at htr
          exact absurd htr (by simp [traverse])
        | cons e h =>
          rw [hfil] at htr
          simp only [traverse, Option.some.injEq] at htr
          intro r hr
          rw [← hout] at hr
          rcases List.mem_map.mp hr with ⟨g, hg, hreq⟩
          rw [← htr] at hg
          rw [← hreq]
          show lookupA (collapseFields g.2) f₀ = some p₀
          apply lookupA_collapseFields
          · exact traverseNE_spread es₀ (f₀, p₀) h e items' hmem
              (habs e (by rw [hfil]; simp)) g hg
          · intro fp hfp hf
            have hprov := traverseNE_files (fun fr => ∃ it ∈ items', it.2 = fr)
              h e items' (fun it hit => ⟨it, hit, rfl⟩) g hg fp hfp
            rcases hprov with ⟨it, hit, hfr⟩
            have := huniq it hit (by rw [hfr]; exact hf)
            rw [hfr] at this
            exact this

/-- Witness for the amended C3 theorem: an all-absent template path is
attached to the single emitted group. -/
theorem c3_amended_spread_witness :
    lookupA ({ name := "w"
               interfaceArgs := [("anat", "/b/a_sub1"), ("template", "/b/tpl")]
               bidsEntities := [("subject", some (.str "sub1"))]
               outSpec := "o"
               method := "m" } : ArgInputSpec).interfaceArgs "template" =
      some "/b/tpl" :=
  c3_amended_spread c3wFs "/b" c3wSpec
    [([("subject", some (.str "sub1"))], ("anat", "/b/a_sub1")),
     ([("subject", none)], ("template", "/b/tpl"))]
    ["subject"]
    [{ name := "w"
       interfaceArgs := [("anat", "/b/a_sub1"), ("template", "/b/tpl")]
       bidsEntities := [("subject", some (.str "sub1"))]
       outSpec := "o"
       method := "m" }]
    [("subject", none)] "template" "/b/tpl"
    (by decide) (by decide) (by decide) (by decide) (by decide) (by decide)
    _ (by decide)

/-- C9 (confirmed): when the filtered hierarchy is non-empty and every
matched path's entity-set is absent on its first entity, every sub-group
at the top level is empty, the whole spread set vanishes with them, and
`gen_args` emits zero records. -/
theorem c9_all_absent_first_entity (fs : String → List String) (absBase : String)
    (sp : FSpec) (items : List Item) (hier : List String) (e : String) (h : List String)
    (hitems : collectBids fs absBase sp.bidsMap sp.args = .ok items)
    (hh : sp.bidsHierarchy = some hier)
    (hfil : filteredHierarchy hier sp.bidsMap = e :: h)
    (hall : ∀ it ∈ items, lookupES it.1 e = none) :
    genArgs fs absBase sp = .ok [] := by
  unfold genArgs
  simp only [hitems, hh]
  rw [hfil]
  simp only [traverse]
  suffices htr : traverseNE e h items = [] by
    rw [htr]
    rfl
  cases h with
  | nil =>
    rw [traverseNE_nil_eq, groupByEntity_found_empty items e hall]
    show applySpread (resolveGroup []) (groupByEntity items e).2 = []
    unfold applySpread resolveGroup
    split <;> simp
  | cons e' h' =>
    rw [traverseNE_cons_eq, groupByEntity_found_empty items e hall]
    rfl

/-- Witness for C9 at a concrete scenario whose two matched paths have
no `sub-` token. -/
theorem c9_all_absent_first_entity_witness :
    genArgs c9Fs "/b" c9Spec = .ok [] :=
  c9_all_absent_first_entity c9Fs "/b" c9Spec
    [([("subject", none)], ("anat", "/b/x_one")),
     ([("subject", none)], ("anat", "/b/x_two"))]
    ["subject"] "subject" []
    (by decide) (by decide) (by decide) (by decide)

/-- C4 (corrected): with a matched file present but a configured
hierarchy entity that is not a `bids_map` key, the filtered hierarchy is
empty and the grouper raises IndexError (`h.pop(0)` on an empty list)
instead of returning a one-level mapping. -/
theorem c4_counterexample :
    collectBids emptyHierFs "/b" emptyHierSpec.bidsMap emptyHierSpec.args =
      .ok [([("subject", some (.str "sub-01"))], ("anat", "/b/sub-01/anat.nii.gz"))] ∧
    genArgs emptyHierFs "/b" emptyHierSpec = .error .indexError := by
  decide

/-- C4 (amended): whenever the hierarchy filtered to the available
entities is empty, `traverse` pops from an empty list, so `gen_args`
propagates an IndexError — the empty-hierarchy base case described by
the spec never returns. -/
theorem c4_amended_empty_hierarchy_fails (fs : String → List String) (absBase : String)
    (sp : FSpec) (items : List Item) (hier : List String)
    (hitems : collectBids fs absBase sp.bidsMap sp.args = .ok items)
    (hh : sp.bidsHierarchy = some hier)
    (hfil : filteredHierarchy hier sp.bidsMap = []) :
    genArgs fs absBase sp = .error .indexError := by
  unfold genArgs
  simp only [hitems, hh]
  rw [hfil]
  rfl

/-- Witness for the amended C4 theorem at the `ses`-hierarchy
scenario. -/
theorem c4_amended_empty_hierarchy_fails_witness :
    genArgs emptyHierFs "/b" emptyHierSpec = .error .indexError :=
  c4_amended_empty_hierarchy_fails emptyHierFs "/b" emptyHierSpec
    [([("subject", some (.str "sub-01"))], ("anat", "/b/sub-01/anat.nii.gz"))]
    ["ses"] (by decide) (by decide) (by decide)

/-- C8 (corrected): resolving the same loaded configuration twice can
differ: a resolved `global.env` value may still contain a braced
placeholder (they escape `_substitute_env`'s scan), so the first pass
rewrites the stored argument value `$A` to `${B}` and the second pass
resolves that to `1`, globbing a different pattern — here the first
resolution emits no record and the second emits one. -/
theorem c8_counterexample :
    (getFileArgs idemState idemFs "/b").1 = .ok [[]] ∧
    (getFileArgs ((getFileArgs idemState idemFs "/b").2) idemFs "/b").1 =
      .ok [[idemRec]] ∧
    (getFileArgs idemState idemFs "/b").1 ≠
      (getFileArgs ((getFileArgs idemState idemFs "/b").2) idemFs "/b").1 := by
  decide

/-- C8 (amended): resolution is idempotent from the second call onward
whenever the first call's substituted argument values are dollar-free
(and the Python-dict key-uniqueness invariants hold): re-merging the
default entity-map is the identity and re-substituting a dollar-free
value is the identity, so a repeat call returns the same record lists
and leaves the state unchanged. -/
theorem c8_amended_idempotent (st st' : SpecState) (g : String → List String)
    (b : String) (res : List (List ArgInputSpec))
    (h1 : getFileArgs st g b = (.ok res, st'))
    (hdk : (keysA st.defaults.bidsMap).Nodup)
    (hrk : ∀ sp ∈ st.fileSpecs, ∀ kr ∈ sp.bidsMap, (keysA kr.2).Nodup)
    (hnd : ∀ sp ∈ st'.fileSpecs, ∀ a ∈ sp.args, noDollarVal a.value = true) :
    getFileArgs st' g b = (.ok res, st') := by
  simp only [getFileArgs] at h1 ⊢
  cases hgo : getFileArgsGo st.defaults g b st.fileSpecs with
  | mk exc l' =>
    rw [hgo] at h1
    simp only at h1
    rw [Prod.ext_iff] at h1
    simp only at h1
    obtain ⟨ha, hb⟩ := h1
    subst hb
    simp only at hnd ⊢
    subst ha
    have hidem := getFileArgsGo_idem st.defaults g b st.fileSpecs res l' hgo hdk hrk hnd
    rw [hidem]

/-- Witness for the amended C8 theorem: a second resolution of the
already-resolved witness state returns the same result and state. -/
theorem c8_amended_idempotent_witness :
    getFileArgs c8wSt' c8wFs "/b" = (.ok c8wRes, c8wSt') :=
  c8_amended_idempotent c8wSt c8wSt' c8wFs "/b" c8wRes
    (by decide) (by decide) (by decide) (by decide)

/-- C10 (confirmed): one call to `get_file_args` leaves the defaults
untouched and replaces every stored file-spec entry in place by its
mutated form: the original's `bids_map` deep-merged with the global
default map and every argument value overwritten with its substituted
string. -/
theorem c10_frame_effect (st st' : SpecState) (g : String → List String)
    (b : String) (res : List (List ArgInputSpec))
    (h1 : getFileArgs st g b = (.ok res, st')) :
    st'.defaults = st.defaults ∧
    st'.fileSpecs = st.fileSpecs.map (mutSpec st.defaults) := by
  simp only [getFileArgs] at h1
  cases hgo : getFileArgsGo st.defaults g b st.fileSpecs with
  | mk exc l' =>
    rw [hgo] at h1
    simp only at h1
    rw [Prod.ext_iff] at h1
    simp only at h1
    obtain ⟨ha, hb⟩ := h1
    subst hb
    refine ⟨rfl, ?_⟩
    simp only
    subst ha
    exact getFileArgsGo_mut st.defaults g b st.fileSpecs res l' hgo

/-- Witness for C10: the witness state's entry is rewritten in place
(merged map, substituted value) while the defaults are unchanged. -/
theorem c10_frame_effect_witness :
    c10St'.defaults = c10St.defaults ∧
    c10St'.fileSpecs = c10St.fileSpecs.map (mutSpec c10St.defaults) :=
  c10_frame_effect c10St c10St' c10Fs "/b" [[]] (by decide)

/-- C1 (corrected): in the §8 scenario the two emitted records key
`subject` by the entire first regex match — `sub-01` and `sub-02` — not
by the captured digits, because `_extract_bids_entities` takes match
group 0. -/
theorem c1_counterexample :
    genArgs e2eFs "/b" e2eSpec = .ok e2eOut ∧
    e2eOut.map (fun r => lookupES r.bidsEntities "subject") =
      [some (.str "sub-01"), some (.str "sub-02")] ∧
    e2eOut.map (fun r => lookupES r.bidsEntities "subject") ≠
      [some (.str "01"), some (.str "02")] := by
  decide

/-- C1 (amended): the §8 scenario emits exactly two records, one per
subject, with `interface_args` mapping `anat` to the matching path and
`bids_entities` giving `subject` the full matched text `sub-01` resp.
`sub-02` (group 0 of the first match of the pattern in the path). -/
theorem c1_amended_scenario :
    genArgs e2eFs "/b" e2eSpec = .ok e2eOut := by
  decide

/-- C2 (code bug): `_get_file_arg` calls
`_nested_update(spec['bids_map'], defaults)`, so on a key conflict the
global default rule value overwrites the spec's own (here the default
pattern `S(\d+)` replaces the spec's `sub-(\d+)`), the reverse of the
documented defaults-are-fallback merge; the spec's own entry does not
survive. -/
theorem c2_code_bug_eval :
    (getFileArg c2Defaults (fun _ => []) "/b" c2Spec).2.bidsMap =
      [("subject", [("regex", .bool true), ("value", .str "S(\\d+)")])] ∧
    lookupA (getFileArg c2Defaults (fun _ => []) "/b" c2Spec).2.bidsMap "subject" ≠
      some [("regex", .bool true), ("value", .str "sub-(\\d+)")] ∧
    c2Spec.bidsMap = [("subject", [("regex", .bool true), ("value", .str "sub-(\\d+)")])] ∧
    c2Defaults.bidsMap = [("subject", [("value", .str "S(\\d+)")])] := by
  decide

/-- C6 (corrected): with `global.env` mapping SUBJ to 01, the argument
value `sub-${SUBJ}_T1w.nii.gz` resolves to `sub-01_T1w.nii.gz`; but a
reference to an undefined `${MISSING}` raises `Template.substitute`'s
KeyError naming MISSING — only TypeError is caught, so no
ValidationError is produced. -/
theorem c6_env_law :
    applyEnvs { env := some [("SUBJ", "01")], bidsMap := [], bidsHierarchy := none }
        [{ field := "anat", value := .str "sub-${SUBJ}_T1w.nii.gz", noBids := false }] =
      ([{ field := "anat", value := .str "sub-01_T1w.nii.gz", noBids := false }], none) ∧
    applyEnvs { env := some [("SUBJ", "01")], bidsMap := [], bidsHierarchy := none }
        [{ field := "anat", value := .str "${MISSING}", noBids := false }] =
      ([{ field := "anat", value := .str "${MISSING}", noBids := false }],
        some (.keyError "MISSING")) := by
  decide

/-- C7 (corrected): the unresolved-variable scan matches only brace-less
`$NAME` occurrences, so an unresolved braced placeholder `${MISSING}`
survives expansion and `_substitute_env` succeeds, returning a string
that still contains placeholder syntax. -/
theorem c7_counterexample :
    substituteEnv (fun _ => none) "${MISSING}" = .ok "${MISSING}" := by
  decide

/-- C7 (amended): on success the returned string contains no brace-less
`$NAME` placeholder (the scan is complete for that shape), and whenever
a brace-less placeholder survives expansion the call fails with a
ValidationError carrying a non-empty list of scanned occurrences;
braced `${NAME}` placeholders escape the scan entirely. -/
theorem c7_amended_scan :
    (∀ (env : String → Option String) (s r : String),
      substituteEnv env s = .ok r → hasBraceless r.data = false) ∧
    (∀ (env : String → Option String) (s : String),
      hasBraceless (expandvars env s).data = true →
      ∃ us, substituteEnv env s = .error (.validationError us) ∧ us ≠ []) := by
  constructor
  · intro env s r h
    simp only [substituteEnv] at h
    cases hf : findUnresolved (expandvars env s).data with
    | nil =>
      simp only [hf] at h
      have hr : expandvars env s = r := Except.ok.inj h
      subst hr
      exact no_braceless_of_findUF_nil _ _ (by omega) hf
    | cons u us =>
      simp only [hf] at h
      exact absurd h (by simp)
  · intro env s hb
    cases hf : findUnresolved (expandvars env s).data with
    | nil =>
      have hnb := no_braceless_of_findUF_nil ((expandvars env s).data.length + 1)
        (expandvars env s).data (by omega) hf
      rw [hnb] at hb
      exact absurd hb (by simp)
    | cons u us =>
      refine ⟨u :: us, ?_, by simp⟩
      simp only [substituteEnv, hf]

/-- Witness for the amended C7 theorem: a braced placeholder survives a
successful call whose result passes the brace-less scan. -/
theorem c7_amended_scan_witness :
    hasBraceless (String.data "x ${BAR}") = false :=
  c7_amended_scan.1 (fun n => if n = "FOO" then some "x" else none)
    "$FOO ${BAR}" "x ${BAR}" (by decide)

/-- C6 (counterexample): the exception raised for the undefined
`${MISSING}` is a KeyError, not the claimed
ConfigurationError/ValidationError — `_apply_envs` catches only
TypeError, so `Template.substitute`'s KeyError propagates. -/
theorem c6_counterexample :
    (applyEnvs { env := some [("SUBJ", "01")], bidsMap := [], bidsHierarchy := none }
        [{ field := "anat", value := .str "${MISSING}", noBids := false }]).2 =
      some (.keyError "MISSING") := by
  decide
